import Mathlib

/-!
Verification development for the travel-planner itinerary normalization and
enrichment pipeline (`planner.py`, `api.py`).

Python numeric semantics are modelled over `ℚ`:
* `pyRound` is Python's `round` on one argument (round-half-to-even);
* `pyTrunc` is Python's `int(...)` on a numeric value (truncation toward zero);
* optional / missing document fields are modelled with `Option`.
-/

/-- Rational division, written so the kernel can evaluate it (the library's
`Rat.inv`, and with it `/` on `ℚ`, is irreducible); `qdiv_eq_div` below shows
it is exactly `/`. -/
def qdiv (a b : ℚ) : ℚ := Rat.divInt (a.num * b.den) (a.den * b.num)

/-- Python `round(x)`: nearest integer, ties to even. -/
def pyRound (q : ℚ) : ℤ :=
  if q - (⌊q⌋ : ℚ) < qdiv 1 2 then ⌊q⌋
  else if qdiv 1 2 < q - (⌊q⌋ : ℚ) then ⌊q⌋ + 1
  else if ⌊q⌋ % 2 = 0 then ⌊q⌋ else ⌊q⌋ + 1

/-- Python `int(x)` on a numeric value: truncation toward zero. -/
def pyTrunc (q : ℚ) : ℤ :=
  if 0 ≤ q then ⌊q⌋ else -⌊-q⌋

/-- Python `round(x, 2)`: round half to even at two decimal places. -/
def pyRound2 (q : ℚ) : ℚ :=
  qdiv ((pyRound (q * 100) : ℤ) : ℚ) 100

/-- `_coerce_cost` (planner.py): `max(0, int(float(value)))`, non-numeric/missing → 0. -/
def coerceCost : Option ℚ → ℤ
  | none => 0
  | some q => max 0 (pyTrunc q)

/-- `entry.get('cost', 0)`-style read of an optional numeric field. -/
def getCost0 : Option ℚ → ℚ
  | none => 0
  | some q => q

/-- `_safe_int` (api.py): `int(round(float(value)))`, non-numeric/missing → 0. -/
def safeIntOpt : Option ℚ → ℤ
  | none => 0
  | some q => pyRound q

/-- `_safe_float` (api.py): `float(value)`, non-numeric/missing → 0. -/
def safeFloatOpt : Option ℚ → ℚ
  | none => 0
  | some q => q

/-! ## Cost Normalizer: itinerary side (`normalize_itinerary_costs`) -/

/-- An activity or meal entry, restricted to the field the cost normalizer
reads and writes (`cost`; missing field = `none`). -/
structure CEntry where
  cost : Option ℚ
deriving DecidableEq, Repr

/-- A `Day` document as seen by the cost normalizer. -/
structure CDay where
  activities : List CEntry
  meals : List CEntry
  total_cost : Option ℚ
deriving DecidableEq, Repr

/-- An itinerary document as seen by the cost normalizer (`itinerary` key). -/
structure CItinerary where
  schedule : List CDay
deriving DecidableEq, Repr

/-- `max(100.0, float(total_budget or 100.0))`. -/
def safeBudgetOf (tb : ℚ) : ℚ := max 100 tb

/-- `max(1, int(days or 1))`. -/
def safeDaysOf (days : ℤ) : ℤ := max 1 days

/-- `per_day_base = safe_budget / days`. -/
def perDayBaseI (tb : ℚ) (days : ℤ) : ℚ :=
  qdiv (safeBudgetOf tb) ((safeDaysOf days : ℤ) : ℚ)

/-- `per_day_cap = max(60.0, per_day_base * 1.2)`. -/
def perDayCap (tb : ℚ) (days : ℤ) : ℚ :=
  max 60 (perDayBaseI tb days * qdiv 6 5)

/-- `per_entry_cap = max(10.0, min(per_day_cap * 0.5, per_day_base * 0.35, 95.0))`. -/
def perEntryCap (tb : ℚ) (days : ℤ) : ℚ :=
  max 10 (min (perDayCap tb days * qdiv 1 2) (min (perDayBaseI tb days * qdiv 7 20) 95))

/-- Per-entry clamping step: `cost = _coerce_cost(entry.get('cost'))`, then
`if cost > per_entry_cap: cost = int(per_entry_cap)`. -/
def clampVal (pec : ℚ) (e : CEntry) : ℤ :=
  if pec < ((coerceCost e.cost : ℤ) : ℚ) then pyTrunc pec else coerceCost e.cost

/-- Per-entry rescaling step: `int(max(0, round(cost * ratio)))`. -/
def scaleVal (r : ℚ) (c : ℤ) : ℤ :=
  max 0 (pyRound ((c : ℚ) * r))

/-- Processing of one `Day` by `normalize_itinerary_costs`: clamp every entry
cost, then, if the day total exceeds `per_day_cap`, rescale every entry by
`per_day_cap / day_total` and recompute the total. -/
def normDay (pec cap : ℚ) (d : CDay) : CDay :=
  let av := d.activities.map (clampVal pec)
  let mv := d.meals.map (clampVal pec)
  let dayTotal := av.sum + mv.sum
  if cap < (dayTotal : ℚ) ∧ 0 < dayTotal then
    let r := qdiv cap ((dayTotal : ℤ) : ℚ)
    let av2 := av.map (scaleVal r)
    let mv2 := mv.map (scaleVal r)
    { activities := av2.map (fun c : ℤ => ⟨some ((c : ℤ) : ℚ)⟩),
      meals := mv2.map (fun c : ℤ => ⟨some ((c : ℤ) : ℚ)⟩),
      total_cost := some ((av2.sum + mv2.sum : ℤ) : ℚ) }
  else
    { activities := av.map (fun c : ℤ => ⟨some ((c : ℤ) : ℚ)⟩),
      meals := mv.map (fun c : ℤ => ⟨some ((c : ℤ) : ℚ)⟩),
      total_cost := some ((dayTotal : ℤ) : ℚ) }

/-- `normalize_itinerary_costs(itinerary, total_budget, days)` (planner.py).
The early returns for a missing/empty schedule coincide with mapping over the
empty list, so the map form is the whole function on typed documents. -/
def normalizeItineraryCosts (it : CItinerary) (tb : ℚ) (days : ℤ) : CItinerary :=
  { schedule := it.schedule.map (normDay (perEntryCap tb days) (perDayCap tb days)) }

/-- Sum of the `cost` fields of a day's activity and meal entries. -/
def sumEntryCosts (d : CDay) : ℚ :=
  (d.activities.map (fun e => getCost0 e.cost)).sum
    + (d.meals.map (fun e => getCost0 e.cost)).sum

/-- Number of activity and meal entries of a day. -/
def numEntries (d : CDay) : ℕ :=
  d.activities.length + d.meals.length

/-! ## Cost Normalizer: budget side (`normalize_budget_estimate`) -/

/-- Transport quote summary recorded in itinerary/budget metadata by
`_inject_transport_costs` (api.py). -/
structure TSummary where
  quote_id : String
  mode : String
  provider : String
  currency : String
  native_amount : ℚ
  usd_amount : ℤ
  travel_day : Option ℚ
  notes : String
deriving DecidableEq, Repr

/-- One category block of a budget breakdown. `primary` is the category's
primary numeric field (`subtotal` for accommodation/food, `estimated` for
activities/transport, `amount` for contingency); `per_night`/`per_day` are
the optional sub-fields clamped when present. -/
structure BSection where
  primary : Option ℚ
  per_night : Option ℚ
  per_day : Option ℚ
deriving DecidableEq, Repr

/-- The `breakdown` map of a budget document, with its five known category
keys (a key absent from the map is `none`). -/
structure BBreakdown where
  accommodation : Option BSection
  food : Option BSection
  activities : Option BSection
  transport : Option BSection
  contingency : Option BSection
deriving DecidableEq, Repr

/-- A budget document as seen by `normalize_budget_estimate` and
`_inject_transport_costs`. -/
structure BudgetDoc where
  total_budget : Option ℚ
  daily_budget : Option ℚ
  breakdown : Option BBreakdown
  meta_transport : Option TSummary
deriving DecidableEq, Repr

/-- `safe_total = int(max(100, round(total_budget or 0)))`. -/
def safeTotalOf (tb : ℚ) : ℤ := max 100 (pyRound tb)

/-- `safe_daily = int(max(40, round(safe_total / days)))`. -/
def safeDailyOf (tb : ℚ) (days : ℤ) : ℤ :=
  max 40 (pyRound (qdiv ((safeTotalOf tb : ℤ) : ℚ) ((safeDaysOf days : ℤ) : ℚ)))

/-- `per_day_base = safe_total / days` (budget side). -/
def perDayBaseB (tb : ℚ) (days : ℤ) : ℚ :=
  qdiv ((safeTotalOf tb : ℤ) : ℚ) ((safeDaysOf days : ℤ) : ℚ)

/-- `min(ceiling, _coerce_cost(value) or ceiling)`: clamp a top-level budget
field to a ceiling, falling back to the ceiling when the field is 0/invalid. -/
def clampBudgetField (ceiling : ℤ) (v : Option ℚ) : ℤ :=
  if coerceCost v = 0 then ceiling else min ceiling (coerceCost v)

/-- `int(min(_coerce_cost(x), cap))` for the `per_night`/`per_day` sub-fields. -/
def clampSubField (cap : ℚ) (v : ℚ) : ℤ :=
  pyTrunc (min ((coerceCost (some v)) : ℚ) cap)

/-- Clamping of one present breakdown section: primary field clamped to its
category cap, `per_night`/`per_day` clamped when present. -/
def applySection (cap pdb : ℚ) (s : BSection) : BSection :=
  let raw := coerceCost s.primary
  let v : ℤ := if cap = 0 then raw else pyTrunc (min (raw : ℚ) cap)
  { primary := some (v : ℚ),
    per_night := s.per_night.map (fun pn => ((clampSubField (pdb * qdiv 11 20) pn : ℤ) : ℚ)),
    per_day := s.per_day.map (fun pd => ((clampSubField (pdb * qdiv 1 4) pd : ℤ) : ℚ)) }

/-- Tracked category total of a (possibly absent) section. -/
def primValOf : Option BSection → ℤ
  | none => 0
  | some s => coerceCost s.primary

/-- Final proportional rescaling of one tracked section:
`section[field] = int(max(0, round(value * ratio)))`. -/
def rescaleSection (r : ℚ) : Option BSection → Option BSection
  | none => none
  | some s => some { s with
      primary := some ((max 0 (pyRound (getCost0 s.primary * r)) : ℤ) : ℚ) }

/-- The clamping loop over the five category caps (weights 0.55, 0.25, 0.3,
0.35, 0.15 of `per_day_base`); absent categories are skipped. -/
def clampedBreakdown (pdb : ℚ) (bd : BBreakdown) : BBreakdown :=
  ⟨ bd.accommodation.map (applySection (pdb * qdiv 11 20) pdb),
    bd.food.map (applySection (pdb * qdiv 1 4) pdb),
    bd.activities.map (applySection (pdb * qdiv 3 10) pdb),
    bd.transport.map (applySection (pdb * qdiv 7 20) pdb),
    bd.contingency.map (applySection (pdb * qdiv 3 20) pdb) ⟩

/-- `sum(value for _, _, value in tracked_fields)`: sum of the tracked
category totals of a breakdown. -/
def bkSum (bd : BBreakdown) : ℤ :=
  primValOf bd.accommodation + primValOf bd.food + primValOf bd.activities
    + primValOf bd.transport + primValOf bd.contingency

/-- The final proportional rescaling applied to every tracked section. -/
def rescaleBreakdown (r : ℚ) (bd : BBreakdown) : BBreakdown :=
  ⟨ rescaleSection r bd.accommodation, rescaleSection r bd.food,
    rescaleSection r bd.activities, rescaleSection r bd.transport,
    rescaleSection r bd.contingency ⟩

/-- The breakdown part of `normalize_budget_estimate`: clamp each category,
then rescale by `safe_total / total` when the tracked sum exceeds
`safe_total`. -/
def normBreakdown (st : ℤ) (pdb : ℚ) (bd : BBreakdown) : BBreakdown :=
  let cb := clampedBreakdown pdb bd
  let total := bkSum cb
  if st < total ∧ 0 < total then
    rescaleBreakdown (qdiv ((st : ℤ) : ℚ) ((total : ℤ) : ℚ)) cb
  else cb

/-- `normalize_budget_estimate(budget_data, total_budget, days)` (planner.py). -/
def normalizeBudgetEstimate (b : BudgetDoc) (tb : ℚ) (days : ℤ) : BudgetDoc :=
  let st := safeTotalOf tb
  let sd := safeDailyOf tb days
  let tbF : ℤ := clampBudgetField st b.total_budget
  let dbF : ℤ := clampBudgetField sd b.daily_budget
  match b.breakdown with
  | none =>
    { b with total_budget := some (tbF : ℚ), daily_budget := some (dbF : ℚ) }
  | some bd =>
    { total_budget := some (tbF : ℚ), daily_budget := some (dbF : ℚ),
      breakdown := some (normBreakdown st (perDayBaseB tb days) bd),
      meta_transport := b.meta_transport }

/-- Sum of the clamped category totals of a budget document's breakdown, over
the categories present as maps. -/
def budgetTrackedSum (b : BudgetDoc) : ℤ :=
  match b.breakdown with
  | none => 0
  | some bd => bkSum bd

/-! ## Time-Window Meal Scheduler (`schedule_meals` and helpers, planner.py) -/

/-- Characters matched by `\s` in the time regex (ASCII whitespace). -/
def isPySpace (c : Char) : Bool :=
  c = ' ' ∨ c = '\t' ∨ c = '\n' ∨ c = '\r' ∨ c = '\x0c' ∨ c = '\x0b'

/-- Numeric value of a run of decimal digits. -/
def digitsVal (ds : List Char) : ℤ :=
  ds.foldl (fun a c => a * 10 + ((c.toNat : ℤ) - 48)) 0

/-- `_parse_minutes` (planner.py): match
`^(\d{1,2})(?::(\d{2}))?\s*(am|pm)?` against the stripped, lower-cased text
and convert to minutes since midnight (`hour % 24`, am/pm adjustment).
Non-string input is modelled by `none` at the call sites. -/
def parseMinutes (s : String) : Option ℤ :=
  match (s.trim.toLower).toList with
  | [] => none
  | c1 :: rest =>
    if ¬ c1.isDigit then none
    else
      let hrest : List Char × List Char :=
        match rest with
        | c2 :: r2 => if c2.isDigit then ([ c1, c2 ], r2) else ([ c1 ], rest)
        | [] => ([ c1 ], [])
      let hour0 := digitsVal hrest.1
      let mrest : ℤ × List Char :=
        match hrest.2 with
        | ':' :: a :: b :: r3 =>
          if a.isDigit ∧ b.isDigit then (digitsVal [ a, b ], r3) else (0, hrest.2)
        | _ => (0, hrest.2)
      let after := mrest.2.dropWhile isPySpace
      let meridian : Option Bool :=
        match after with
        | 'a' :: 'm' :: _ => some false
        | 'p' :: 'm' :: _ => some true
        | _ => none
      let h1 := hour0 % 24
      let hour : ℤ :=
        match meridian with
        | some true => if h1 ≠ 12 then h1 + 12 else h1
        | some false => if h1 = 12 then 0 else h1
        | none => h1
      some (hour * 60 + mrest.1)

/-- Two-digit zero-padded rendering used by `"{:02d}".format`. -/
def twoDig (n : ℤ) : String :=
  let s := toString n
  if s.length < 2 then "0" ++ s else s

/-- `_format_minutes` (planner.py): clamp to [0, 23:59] and render `HH:MM`. -/
def formatMinutes (t : ℤ) : String :=
  let t2 := max 0 (min t (23 * 60 + 59))
  twoDig (t2 / 60) ++ ":" ++ twoDig (t2 % 60)

/-- `_clamp_minutes` (planner.py). -/
def clampMinutes (v lo hi : ℤ) : ℤ := max lo (min v hi)

/-- An activity entry as seen by the meal scheduler (fields read by
`_parse_minutes`, `_is_travel_entry` and `_activity_range`; a missing string
field is `""`, a missing `time` is `none`). -/
structure MEntry where
  time : Option String
  activity : String
  descr : String
  tip : String
  duration_minutes : Option ℚ
deriving DecidableEq, Repr

/-- `TRAVEL_ACTIVITY_KEYWORDS` (planner.py). -/
def travelActivityKeywords : List String :=
  [ "travel", "transfer", "transit", "journey", "drive", "flight", "train",
    "depart", "arrival", "commute", "ferry", "bus" ]

/-- Bool-valued check that `p` is a leading segment of `l`. -/
def listHasPre (p l : List Char) : Bool :=
  match p, l with
  | [], _ => true
  | _ :: _, [] => false
  | a :: ps, b :: ls => a == b && listHasPre ps ls

/-- `pat in hay` on the underlying character lists. -/
def hasSubAux (p : List Char) : List Char → Bool
  | [] => p.isEmpty
  | l@(_ :: ls) => listHasPre p l || hasSubAux p ls

/-- Python's substring operator `pat in hay` for strings. -/
def strContains (hay pat : String) : Bool :=
  hasSubAux pat.toList hay.toList

/-- `_is_travel_entry` (planner.py): keyword search over
`activity + ' ' + description + ' ' + tip`, lower-cased. -/
def isTravelEntry (e : MEntry) : Bool :=
  let blob := (e.activity ++ " " ++ e.descr ++ " " ++ e.tip).toLower
  travelActivityKeywords.any (fun kw => strContains blob kw)

/-- `_activity_range` (planner.py): `[time, time + duration]` with duration
defaulting to 60 and clamped to [30, 360]. -/
def activityRange (e : MEntry) : Option (ℤ × ℤ) :=
  match e.time with
  | none => none
  | some t =>
    match parseMinutes t with
    | none => none
    | some st =>
      let raw : ℚ := match e.duration_minutes with
        | none => 60
        | some d => if d = 0 then 60 else d
      let dur := max 30 (min (pyTrunc raw) 360)
      some (st, st + dur)

/-- `_window_overlaps_travel` (planner.py) on a window `[lo, hi]`. -/
def overlapsTravel (lo hi : ℤ) (acts : List MEntry) : Bool :=
  acts.any (fun e =>
    if isTravelEntry e then
      match activityRange e with
      | none => false
      | some sp => decide (lo ≤ sp.2 ∧ sp.1 ≤ hi)
    else false)

/-- `_infer_day_window` (planner.py). -/
def inferDayWindow (acts : List MEntry) : ℤ × ℤ :=
  let times := acts.filterMap (fun e =>
    match e.time with
    | none => none
    | some t => parseMinutes t)
  match times with
  | [] => (8 * 60, 22 * 60)
  | t :: ts =>
    let st := ts.foldl min t
    let en := ts.foldl max t
    let en2 := if en - st < 14 * 60 then st + 14 * 60 else en
    (st, min en2 (23 * 60 + 50))

/-- One of the four fixed candidate meal windows (`MEAL_WINDOWS`). -/
structure MealWindow where
  mtype : String
  mlabel : String
  wstart : ℤ
  wend : ℤ
deriving DecidableEq, Repr

/-- `MEAL_WINDOWS` (planner.py). -/
def mealWindows : List MealWindow :=
  [ ⟨ "breakfast", "Breakfast", 6 * 60 + 30, 10 * 60 ⟩,
    ⟨ "lunch", "Lunch", 11 * 60 + 30, 14 * 60 + 30 ⟩,
    ⟨ "snack", "Snacks", 15 * 60, 17 * 60 + 30 ⟩,
    ⟨ "dinner", "Dinner", 18 * 60, 21 * 60 + 30 ⟩ ]

/-- A scheduled meal slot. -/
structure MealSlot where
  stype : String
  slabel : String
  time : String
  window : ℤ × ℤ
deriving DecidableEq, Repr

/-- The accepted slot built from a candidate window: meal placed at the
window midpoint clamped into the day window. -/
def mkWindowSlot (dayStart dayEnd : ℤ) (w : MealWindow) : MealSlot :=
  { stype := w.mtype
    slabel := w.mlabel
    time := formatMinutes
      (clampMinutes (pyTrunc (qdiv ((w.wstart + w.wend : ℤ) : ℚ) 2)) dayStart dayEnd)
    window := (w.wstart, w.wend) }

/-- The candidate-window pass of `schedule_meals`: walk the four fixed windows
in order, stop at `MAX_SCHEDULED_MEALS = 3`, skip windows entirely outside the
extended day span and windows overlapping a travel-tagged activity. -/
def candidateSlots (acts : List MEntry) : List MealSlot :=
  let dw := inferDayWindow acts
  mealWindows.foldl (fun acc w =>
    if 3 ≤ acc.length then acc
    else if w.wend < dw.1 - 60 ∨ dw.2 + 60 < w.wstart then acc
    else if overlapsTravel w.wstart w.wend acts then acc
    else acc ++ [ mkWindowSlot dw.1 dw.2 w ]) []

/-- The synthetic fallback snack slot at the midpoint of the day window. -/
def fallbackSnackSlot (mid : ℤ) : MealSlot :=
  { stype := "snack"
    slabel := "Snacks"
    time := formatMinutes mid
    window := (mid - 30, mid + 30) }

/-- `schedule_meals` (planner.py): the candidate pass, then the synthetic
fallback snack slot when no window qualified and the day has activities,
truncated to 3 slots. -/
def scheduleMeals (acts : List MEntry) : List MealSlot :=
  let sch := candidateSlots acts
  let sch2 :=
    if sch.isEmpty ∧ ¬ acts.isEmpty then
      let dw := inferDayWindow acts
      let mid := pyTrunc (qdiv ((dw.1 + dw.2 : ℤ) : ℚ) 2)
      [ fallbackSnackSlot mid ]
    else sch
  sch2.take 3

/-! ## Transport Quote Selector & Injector (`api.py`) -/

/-- An activity/meal entry as seen by `_find_travel_day` and
`_inject_transport_costs` (missing string field = `""`). -/
structure TEntry where
  time : String
  activity : String
  restaurant : String
  location : String
  cost : Option ℚ
  descr : String
  tip : String
deriving DecidableEq, Repr

/-- A day document as seen by the transport injector. -/
structure TDay where
  day : Option ℚ
  theme : String
  summary : String
  activities : List TEntry
  meals : List TEntry
  total_cost : Option ℚ
deriving DecidableEq, Repr

/-- An itinerary document as seen by the transport injector. -/
structure TItinerary where
  schedule : List TDay
  meta_transport : Option TSummary
deriving DecidableEq, Repr

/-- `_travel_keywords` (api.py, module level). -/
def travelKeywordsApi : List String :=
  [ "depart", "departure", "flight", "train", "transfer", "journey",
    "travel", "transit" ]

/-- Keyword scan used by `_find_travel_day`. -/
def injMatches (blob : String) : Bool :=
  travelKeywordsApi.any (fun kw => strContains blob kw)

/-- Keyword scan with the meal scheduler's keyword set
(`TRAVEL_ACTIVITY_KEYWORDS`, planner.py) over the same blob. -/
def plannerMatches (blob : String) : Bool :=
  travelActivityKeywords.any (fun kw => strContains blob kw)

/-- `' '.join(bits)`. -/
def joinSpace : List String → String
  | [] => ""
  | [ s ] => s
  | s :: rest => s ++ " " ++ joinSpace rest

/-- `entry.get('activity') or entry.get('restaurant') or ''`. -/
def entryLabelOf (e : TEntry) : String :=
  if e.activity = "" then e.restaurant else e.activity

/-- The lower-cased text blob `_find_travel_day` scans for one day: theme,
summary, then each activity/meal's label and description. -/
def dayBlob (d : TDay) : String :=
  (joinSpace ([ d.theme, d.summary ]
    ++ (d.activities.map (fun e => [ entryLabelOf e, e.descr ])).flatten
    ++ (d.meals.map (fun e => [ entryLabelOf e, e.descr ])).flatten)).toLower

/-- The scan loop of `_find_travel_day`. -/
def findTravelDayAux : List TDay → Option TDay
  | [] => none
  | d :: rest => if injMatches (dayBlob d) then some d else findTravelDayAux rest

/-- `_find_travel_day` (api.py): first day whose blob matches a travel
keyword, else the first day, else `none` for an empty schedule. -/
def findTravelDay (sched : List TDay) : Option TDay :=
  match findTravelDayAux sched with
  | some d => some d
  | none => sched.head?

/-- Position of the day `_find_travel_day` picks (0 when no day matches). -/
def travelDayIdxAux : List TDay → Option ℕ
  | [] => none
  | d :: rest =>
    if injMatches (dayBlob d) then some 0
    else (travelDayIdxAux rest).map (fun n => n + 1)

/-- Index form of `_find_travel_day` used to update the picked day in place. -/
def travelDayIdx (sched : List TDay) : ℕ :=
  (travelDayIdxAux sched).getD 0

/-- A `TransportQuote` document (missing string field = `""`). -/
structure TQuote where
  id : String
  mode : String
  provider : String
  class_label : String
  currency : String
  price_per_person : Option ℚ
  group_price : Option ℚ
  travelers : Option ℤ
  confidence : String
  departure : String
  notes : String
deriving DecidableEq, Repr

/-- The transport options document produced by the pricing collaborator, as
read by `_inject_transport_costs`. -/
structure TransportOptions where
  quotes : List TQuote
  travelers : Option ℤ
  source_label : String
  dest_label : String
deriving DecidableEq, Repr

/-- `transport_options.get('travelers') or 1`. -/
def fallbackTravelersOf (opts : TransportOptions) : ℤ :=
  match opts.travelers with
  | none => 1
  | some t => if t = 0 then 1 else t

/-- `_quote_total_cost(quote, fallback_travelers)` (api.py): `group_price`
when present, else `price_per_person * max(1, travelers)` with the traveler
count falling back through quote-level value, options value, then 1. -/
def quoteTotalCost (q : TQuote) (fallbackTravelers : ℤ) : ℚ :=
  match q.group_price with
  | some gp => gp
  | none =>
    let pp := safeFloatOpt q.price_per_person
    let tv : ℤ :=
      match q.travelers with
      | some t =>
        if t = 0 then (if fallbackTravelers = 0 then 1 else fallbackTravelers) else t
      | none => if fallbackTravelers = 0 then 1 else fallbackTravelers
    pp * ((max 1 tv : ℤ) : ℚ)

/-- `min(quotes, key=...)`: Python's `min` keeps the first minimum. -/
def bestQuoteOf (q0 : TQuote) (qs : List TQuote) (fb : ℤ) : TQuote :=
  qs.foldl (fun best q =>
    if quoteTotalCost q fb < quoteTotalCost best fb then q else best) q0

/-- `_convert_to_usd(amount, currency)` (api.py), with the exchange-rate
lookup (cache + `get_exchange_rate`, failure → 1.0, zero rate → 1.0)
abstracted as the `rates` argument. -/
def convertToUsd (rates : String → Option ℚ) (amount : ℚ) (currency : String) : ℚ :=
  if amount ≤ 0 then 0
  else
    let cc := (if currency = "" then "USD" else currency).toUpper
    if cc = "USD" then amount
    else
      let r : ℚ :=
        match rates cc with
        | none => 1
        | some r0 => if r0 = 0 then 1 else r0
      amount * r

/-- Converted USD total of the quote `_inject_transport_costs` selects
(0 when the quote set is empty). -/
def usdQuoteTotal (opts : TransportOptions) (rates : String → Option ℚ) : ℚ :=
  match opts.quotes with
  | [] => 0
  | q :: qs =>
    let tv := fallbackTravelersOf opts
    let best := bestQuoteOf q qs tv
    convertToUsd rates (quoteTotalCost best tv) best.currency

/-- `str.title()` for the ASCII labels built by the injector. -/
def pyTitleAux : Bool → List Char → List Char
  | _, [] => []
  | prevAlpha, c :: rest =>
    if c.isAlpha then
      (if prevAlpha then c.toLower else c.toUpper) :: pyTitleAux true rest
    else c :: pyTitleAux false rest

/-- `str.title()`. -/
def pyTitle (s : String) : String := ⟨ pyTitleAux false s.toList ⟩

/-- `.replace('_', ' ')`. -/
def underscoreToSpace (s : String) : String :=
  s.map (fun c => if c = '_' then ' ' else c)

/-- Update of the element at one position of a list. -/
def listUpd {α : Type} : List α → ℕ → (α → α) → List α
  | [], _, _ => []
  | a :: l, 0, f => f a :: l
  | a :: l, n + 1, f => a :: listUpd l n f

/-- The synthetic transport activity entry inserted at position 0 of the
travel day. -/
def mkTransportEntry (best : TQuote) (opts : TransportOptions)
    (tv : ℤ) (nativeTotal : ℚ) (entryCost : ℤ) : TEntry :=
  let modeLabel := pyTitle (underscoreToSpace (if best.mode = "" then "transport" else best.mode))
  let providerLabel :=
    if best.provider = "" then
      (if best.class_label = "" then "Preferred Carrier" else best.class_label)
    else best.provider
  let confidence := pyTitle (if best.confidence = "" then "estimated" else best.confidence)
  let localCurrency := (if best.currency = "" then "USD" else best.currency).toUpper
  let routeLabel :=
    (if opts.source_label = "" then "Departure" else opts.source_label)
      ++ " -> "
      ++ (if opts.dest_label = "" then "Arrival" else opts.dest_label)
  { time := if best.departure = "" then "08:00" else best.departure
    activity := modeLabel ++ " via " ++ providerLabel
    restaurant := ""
    location := routeLabel
    cost := some ((entryCost : ℤ) : ℚ)
    descr := modeLabel ++ " cost for " ++ toString tv ++ " travelers ("
      ++ localCurrency ++ " " ++ toString (pyRound nativeTotal) ++ ")."
    tip := if best.notes = "" then confidence ++ " fare injected automatically." else best.notes }

/-- `_inject_transport_costs(itinerary, budget, transport_options)` (api.py). -/
def injectTransportCosts (it : TItinerary) (b : BudgetDoc) (opts : TransportOptions)
    (rates : String → Option ℚ) : TItinerary × BudgetDoc × Option TSummary :=
  match opts.quotes with
  | [] => (it, b, none)
  | q :: qs =>
    match it.schedule with
    | [] => (it, b, none)
    | _ :: _ =>
      let tv := fallbackTravelersOf opts
      let best := bestQuoteOf q qs tv
      let nativeTotal := quoteTotalCost best tv
      let usdTotal := convertToUsd rates nativeTotal best.currency
      if usdTotal ≤ 0 then (it, b, none)
      else
        let entryCost : ℤ := pyRound usdTotal
        let idx := travelDayIdx it.schedule
        let transportEntry := mkTransportEntry best opts tv nativeTotal entryCost
        let targetDay := it.schedule.getD idx ⟨ none, "", "", [], [], none ⟩
        let providerLabel :=
          if best.provider = "" then
            (if best.class_label = "" then "Preferred Carrier" else best.class_label)
          else best.provider
        let summary : TSummary :=
          { quote_id := best.id
            mode := best.mode
            provider := providerLabel
            currency := (if best.currency = "" then "USD" else best.currency).toUpper
            native_amount := pyRound2 nativeTotal
            usd_amount := entryCost
            travel_day := targetDay.day
            notes := best.notes }
        let sched2 := listUpd it.schedule idx (fun d =>
          { d with activities := transportEntry :: d.activities,
                   total_cost := some ((safeIntOpt d.total_cost + entryCost : ℤ) : ℚ) })
        let bd0 : BBreakdown := b.breakdown.getD ⟨ none, none, none, none, none ⟩
        let ts0 : BSection := bd0.transport.getD ⟨ none, none, none ⟩
        let ts1 : BSection :=
          { ts0 with primary := some ((safeIntOpt ts0.primary + entryCost : ℤ) : ℚ) }
        let bd2 : BBreakdown := { bd0 with transport := some ts1 }
        ( { schedule := sched2, meta_transport := some summary },
          { b with breakdown := some bd2, meta_transport := some summary },
          some summary )

/-! ## Outlier Smoother and Bounded Cost History (`api.py`) -/

/-- An activity entry as seen by `_smooth_cost_outliers`. -/
structure SEntry where
  category : String
  estimated_cost : Option ℚ
  cost : Option ℚ
deriving DecidableEq, Repr

/-- `(activity.get('category') or 'general').lower()`. -/
def catOf (e : SEntry) : String :=
  (if e.category = "" then "general" else e.category).toLower

/-- `activity.get('estimated_cost') or activity.get('cost')` (Python or-chain:
a missing or zero `estimated_cost` falls through to `cost`). -/
def rawCostOf (e : SEntry) : Option ℚ :=
  match e.estimated_cost with
  | some v => if v = 0 then e.cost else some v
  | none => e.cost

/-- `_history_average` (api.py): mean of the category's rolling window,
0 when the window is absent or empty. -/
def histAvg (h : String → List ℤ) (cat : String) : ℚ :=
  match h cat with
  | [] => 0
  | v :: vs => qdiv (((v :: vs).sum : ℤ) : ℚ) (((v :: vs).length : ℕ) : ℚ)

/-- `_record_history` (api.py): append to the category's deque
(`maxlen=120`, oldest evicted) unless the value is ≤ 0. -/
def recordHistory (h : String → List ℤ) (cat : String) (v : ℤ) :
    String → List ℤ :=
  if v ≤ 0 then h
  else fun c =>
    if c = cat then
      let l := h cat ++ [ v ]
      l.drop (l.length - 120)
    else h c

/-- The cost clamp of `_smooth_cost_outliers`: when both the rolling average
and the coerced cost are non-zero, clamp into `[avg*0.4, avg*2.2]` using
Python `int(...)` truncation. -/
def smoothCost (avg : ℚ) (c0 : ℤ) : ℤ :=
  if avg ≠ 0 ∧ c0 ≠ 0 then
    (if (c0 : ℚ) < avg * qdiv 2 5 then pyTrunc (avg * qdiv 2 5)
     else if avg * qdiv 11 5 < (c0 : ℚ) then pyTrunc (avg * qdiv 11 5)
     else c0)
  else c0

/-- Processing of one activity by the smoother loop body: write the clamped
cost back into `estimated_cost` and `cost` when it is non-zero. -/
def smoothOne (h : String → List ℤ) (e : SEntry) : SEntry :=
  let c1 := smoothCost (histAvg h (catOf e)) (safeIntOpt (rawCostOf e))
  if c1 ≠ 0 then { e with estimated_cost := some ((c1 : ℤ) : ℚ), cost := some ((c1 : ℤ) : ℚ) }
  else e

/-- History update performed by the same loop body (`_record_history` runs
only when the written-back cost is non-zero). -/
def stepHist (h : String → List ℤ) (e : SEntry) : String → List ℤ :=
  let c1 := smoothCost (histAvg h (catOf e)) (safeIntOpt (rawCostOf e))
  if c1 ≠ 0 then recordHistory h (catOf e) c1 else h

/-- The per-day activity loop of `_smooth_cost_outliers`, threading the
process-wide cost history through the entries in order. -/
def smoothActs (h : String → List ℤ) :
    List SEntry → List SEntry × (String → List ℤ)
  | [] => ([], h)
  | e :: rest =>
    let e2 := smoothOne h e
    let res := smoothActs (stepHist h e) rest
    (e2 :: res.1, res.2)

/-- `_smooth_cost_outliers` over a whole itinerary (each day's activity list,
in day order; meals are not touched). -/
def smoothDays (h : String → List ℤ) :
    List (List SEntry) → List (List SEntry) × (String → List ℤ)
  | [] => ([], h)
  | d :: rest =>
    let r1 := smoothActs h d
    let r2 := smoothDays r1.2 rest
    (r1.1 :: r2.1, r2.2)

/-! ## TTL Result Cache (`_get_cached_entry` / `_set_cache_entry` /
`_cached_geo_result`, api.py) -/

/-- A stored cache entry: payload plus the timestamp it was stored at. -/
structure CacheCell (α : Type) where
  data : List α
  ts : ℚ
deriving DecidableEq, Repr

/-- `_get_cached_entry(cache, key)`: hit within `CACHE_TTL_SECONDS = 3600`
returns a (deep copy of the) payload; an expired entry is evicted and
reported as a miss. The mutated cache is returned alongside the result. -/
def getCachedEntry {α : Type} (cache : String → Option (CacheCell α))
    (key : String) (now : ℚ) :
    Option (List α) × (String → Option (CacheCell α)) :=
  match cache key with
  | none => (none, cache)
  | some p =>
    if 3600 < now - p.ts then
      (none, fun k => if k = key then none else cache k)
    else (some p.data, cache)

/-- `_set_cache_entry(cache, key, data)`: store (a deep copy of) the payload
with the current timestamp, overwriting any prior entry. -/
def setCacheEntry {α : Type} (cache : String → Option (CacheCell α))
    (key : String) (data : List α) (now : ℚ) :
    String → Option (CacheCell α) :=
  fun k => if k = key then some ⟨ data, now ⟩ else cache k

/-- `_cached_geo_result(cache, key, fetcher, fallback)`: get-or-fetch with
the fetch outcome modelled as `Except` (an exception is swallowed into the
fallback, and a falsy fetch result also falls back). The final cache state is
returned alongside the result. -/
def cachedGeoResult {α : Type} (cache : String → Option (CacheCell α))
    (key : String) (fetch : Except Unit (List α)) (fallback : List α)
    (now : ℚ) : List α × (String → Option (CacheCell α)) :=
  let g := getCachedEntry cache key now
  match g.1 with
  | some d => (d, g.2)
  | none =>
    let data :=
      match fetch with
      | .ok v => if v.isEmpty then fallback else v
      | .error _ => fallback
    (data, setCacheEntry g.2 key data now)

/-! ## Safe Document Parser (`_parse_json_safe`, planner.py)

`json.loads` is modelled on the JSON fragment the generator emits: objects
(as ordered field lists), arrays, strings with the standard escapes, numbers
(integers exactly, fraction/exponent forms as rationals), `true`/`false`/
`null`, with strict rejection of trailing commas, raw control characters and
trailing data. -/

/-- A parsed JSON document. Objects keep their fields in textual order. -/
inductive Json where
  | null : Json
  | bool (b : Bool) : Json
  | num (n : ℤ) : Json
  | fnum (q : ℚ) : Json
  | str (s : String) : Json
  | arr (items : List Json) : Json
  | obj (fields : List (String × Json)) : Json

/-- The `{` character. -/
def lbraceC : Char := Char.ofNat 123

/-- The `}` character. -/
def rbraceC : Char := Char.ofNat 125

/-- JSON inter-token whitespace accepted by `json.loads`. -/
def skipWsJ (l : List Char) : List Char :=
  l.dropWhile (fun c => c = ' ' ∨ c = '\t' ∨ c = '\n' ∨ c = '\r')

/-- Hex digit value. -/
def hexVal (c : Char) : Option ℕ :=
  if c.isDigit then some (c.toNat - 48)
  else if 'a' ≤ c ∧ c ≤ 'f' then some (c.toNat - 87)
  else if 'A' ≤ c ∧ c ≤ 'F' then some (c.toNat - 55)
  else none

/-- Body of a JSON string after the opening quote: standard escapes, raw
control characters rejected. -/
def parseStringBody (acc : List Char) : List Char → Option (String × List Char)
  | [] => none
  | '"' :: rest => some (⟨ acc.reverse ⟩, rest)
  | '\\' :: '"' :: r => parseStringBody ('"' :: acc) r
  | '\\' :: '\\' :: r => parseStringBody ('\\' :: acc) r
  | '\\' :: '/' :: r => parseStringBody ('/' :: acc) r
  | '\\' :: 'b' :: r => parseStringBody ('\x08' :: acc) r
  | '\\' :: 'f' :: r => parseStringBody ('\x0c' :: acc) r
  | '\\' :: 'n' :: r => parseStringBody ('\n' :: acc) r
  | '\\' :: 'r' :: r => parseStringBody ('\r' :: acc) r
  | '\\' :: 't' :: r => parseStringBody ('\t' :: acc) r
  | '\\' :: 'u' :: h1 :: h2 :: h3 :: h4 :: r =>
    (match hexVal h1, hexVal h2, hexVal h3, hexVal h4 with
     | some a, some b, some c, some d =>
       parseStringBody (Char.ofNat (((a * 16 + b) * 16 + c) * 16 + d) :: acc) r
     | _, _, _, _ => none)
  | '\\' :: _ => none
  | c :: rest => if c.toNat < 32 then none else parseStringBody (c :: acc) rest

/-- The characters of `true`. -/
def trueLit : List Char := [ 't', 'r', 'u', 'e' ]

/-- The characters of `false`. -/
def falseLit : List Char := [ 'f', 'a', 'l', 's', 'e' ]

/-- The characters of `null`. -/
def nullLit : List Char := [ 'n', 'u', 'l', 'l' ]

/-- Exponent tail of a JSON number (after `e`/`E`); no digits means the
exponent marker is not part of the number. -/
def parseExpTail (r orig : List Char) : Option (Bool × List Char) × List Char :=
  let se : Bool × List Char :=
    match r with
    | '+' :: r2 => (false, r2)
    | '-' :: r2 => (true, r2)
    | _ => (false, r)
  let ed := se.2.takeWhile Char.isDigit
  if ed.isEmpty then (none, orig) else (some (se.1, ed), se.2.drop ed.length)

/-- A JSON number: optional sign, integer part without leading zeros,
optional fraction and exponent. Pure integers become `Json.num`. -/
def parseNumberJ (l : List Char) : Option (Json × List Char) :=
  let sgn : Bool × List Char :=
    match l with
    | '-' :: r => (true, r)
    | _ => (false, l)
  let ip := sgn.2.takeWhile Char.isDigit
  let l2 := sgn.2.drop ip.length
  if ip.isEmpty then none
  else if 1 < ip.length ∧ ip.headD '0' = '0' then none
  else
    let fracp : Option (List Char) × List Char :=
      match l2 with
      | '.' :: r =>
        let fd := r.takeWhile Char.isDigit
        if fd.isEmpty then (none, l2) else (some fd, r.drop fd.length)
      | _ => (none, l2)
    let expp : Option (Bool × List Char) × List Char :=
      match fracp.2 with
      | 'e' :: r => parseExpTail r fracp.2
      | 'E' :: r => parseExpTail r fracp.2
      | _ => (none, fracp.2)
    match fracp.1, expp.1 with
    | none, none =>
      let n := digitsVal ip
      some (Json.num (if sgn.1 then -n else n), expp.2)
    | _, _ =>
      let ipv : ℚ := ((digitsVal ip : ℤ) : ℚ)
      let fv : ℚ :=
        match fracp.1 with
        | none => 0
        | some fd => qdiv ((digitsVal fd : ℤ) : ℚ) ((10 : ℚ) ^ fd.length)
      let ev : ℤ :=
        match expp.1 with
        | none => 0
        | some se2 => (if se2.1 then -1 else 1) * digitsVal se2.2
      let mag : ℚ := (ipv + fv) * ((10 : ℚ) ^ (ev : ℤ))
      some (Json.fnum (if sgn.1 then -mag else mag), expp.2)

mutual

/-- One JSON value (with leading whitespace), fuelled by input length. -/
def parseValueJ : ℕ → List Char → Option (Json × List Char)
  | 0, _ => none
  | fuel + 1, l =>
    let l1 := skipWsJ l
    match l1 with
    | [] => none
    | c :: rest =>
      if c = lbraceC then
        let l2 := skipWsJ rest
        (match l2 with
         | c2 :: r2 =>
           if c2 = rbraceC then some (Json.obj [], r2)
           else (parseMembersJ fuel l2).map (fun p => (Json.obj p.1, p.2))
         | [] => none)
      else if c = '[' then
        let l2 := skipWsJ rest
        (match l2 with
         | c2 :: r2 =>
           if c2 = ']' then some (Json.arr [], r2)
           else (parseItemsJ fuel l2).map (fun p => (Json.arr p.1, p.2))
         | [] => none)
      else if c = '"' then
        (parseStringBody [] rest).map (fun p => (Json.str p.1, p.2))
      else if listHasPre trueLit l1 then some (Json.bool true, l1.drop 4)
      else if listHasPre falseLit l1 then some (Json.bool false, l1.drop 5)
      else if listHasPre nullLit l1 then some (Json.null, l1.drop 4)
      else parseNumberJ l1

/-- Non-empty member list of a JSON object (strict: no trailing comma). -/
def parseMembersJ : ℕ → List Char → Option (List (String × Json) × List Char)
  | 0, _ => none
  | fuel + 1, l =>
    match l with
    | '"' :: rest =>
      (match parseStringBody [] rest with
       | none => none
       | some (k, r1) =>
         match skipWsJ r1 with
         | ':' :: r3 =>
           (match parseValueJ fuel r3 with
            | none => none
            | some (v, r4) =>
              match skipWsJ r4 with
              | ',' :: r6 =>
                (match parseMembersJ fuel (skipWsJ r6) with
                 | none => none
                 | some (ms, r7) => some ((k, v) :: ms, r7))
              | c :: r6 => if c = rbraceC then some ([ (k, v) ], r6) else none
              | [] => none)
         | _ => none)
    | _ => none

/-- Non-empty item list of a JSON array (strict: no trailing comma). -/
def parseItemsJ : ℕ → List Char → Option (List Json × List Char)
  | 0, _ => none
  | fuel + 1, l =>
    match parseValueJ fuel l with
    | none => none
    | some (v, r1) =>
      match skipWsJ r1 with
      | ',' :: r3 => (parseItemsJ fuel r3).map (fun p => (v :: p.1, p.2))
      | ']' :: r3 => some ([ v ], r3)
      | _ => none

end

/-- `json.loads`: one document, trailing data rejected. -/
def parseDocJ (l : List Char) : Option Json :=
  match parseValueJ (l.length + 1) l with
  | none => none
  | some (v, rest) => if (skipWsJ rest).isEmpty then some v else none

/-- `re.sub(r",\s*([}\]])", r"\1", text)`: drop a comma (and following
whitespace) directly before a closing brace/bracket; leftmost,
non-overlapping, scanning resumes after each match. -/
def removeTrailingCommasAux : ℕ → List Char → List Char
  | 0, l => l
  | _ + 1, [] => []
  | fuel + 1, c :: rest =>
    if c = ',' then
      let ws := rest.takeWhile isPySpace
      let r2 := rest.drop ws.length
      match r2 with
      | b :: r3 =>
        if b = rbraceC ∨ b = ']' then b :: removeTrailingCommasAux fuel r3
        else c :: removeTrailingCommasAux fuel rest
      | [] => c :: removeTrailingCommasAux fuel rest
    else c :: removeTrailingCommasAux fuel rest

/-- First textual repair of `_parse_json_safe`. -/
def removeTrailingCommas (l : List Char) : List Char :=
  removeTrailingCommasAux l.length l

/-- `re.sub(r",\s*,", ",", cleaned)`: collapse duplicate commas (leftmost,
non-overlapping). -/
def collapseDupCommasAux : ℕ → List Char → List Char
  | 0, l => l
  | _ + 1, [] => []
  | fuel + 1, c :: rest =>
    if c = ',' then
      let ws := rest.takeWhile isPySpace
      let r2 := rest.drop ws.length
      match r2 with
      | b :: r3 =>
        if b = ',' then ',' :: collapseDupCommasAux fuel r3
        else c :: collapseDupCommasAux fuel rest
      | [] => c :: collapseDupCommasAux fuel rest
    else c :: collapseDupCommasAux fuel rest

/-- Second textual repair of `_parse_json_safe`. -/
def collapseDupCommas (l : List Char) : List Char :=
  collapseDupCommasAux l.length l

/-- `re.sub(r'\d+\s*-\s*\d+', midpoint, cleaned)`: replace every numeric
range by the floor midpoint `(a + b) // 2` of its two numbers. A failed
attempt resumes scanning at the first position a new match could start. -/
def replaceRangesAux : ℕ → List Char → List Char
  | 0, l => l
  | _ + 1, [] => []
  | fuel + 1, c :: rest =>
    if c.isDigit then
      let d1 := (c :: rest).takeWhile Char.isDigit
      let r1 := (c :: rest).drop d1.length
      let ws1 := r1.takeWhile isPySpace
      let r2 := r1.drop ws1.length
      match r2 with
      | '-' :: r3 =>
        let ws2 := r3.takeWhile isPySpace
        let r4 := r3.drop ws2.length
        let d2 := r4.takeWhile Char.isDigit
        if d2.isEmpty then
          (d1 ++ ws1 ++ [ '-' ] ++ ws2) ++ replaceRangesAux fuel r4
        else
          (toString ((digitsVal d1 + digitsVal d2) / 2)).toList
            ++ replaceRangesAux fuel (r4.drop d2.length)
      | _ => (d1 ++ ws1) ++ replaceRangesAux fuel r2
    else c :: replaceRangesAux fuel rest

/-- Third textual repair of `_parse_json_safe`. -/
def replaceRanges (l : List Char) : List Char :=
  replaceRangesAux l.length l

/-- `re.sub(r':\s*"([^"]*)\n([^"]*)"', ...)`: join a string value containing
a raw newline onto one line (the greedy first group splits at the last
newline of the quoted span; the replacement normalizes the whitespace after
the colon to one space). -/
def joinNewlinesAux : ℕ → List Char → List Char
  | 0, l => l
  | _ + 1, [] => []
  | fuel + 1, c :: rest =>
    if c = ':' then
      let ws := rest.takeWhile isPySpace
      let r1 := rest.drop ws.length
      match r1 with
      | '"' :: r2 =>
        let body := r2.takeWhile (fun ch => ¬ ch = '"')
        let r3 := r2.drop body.length
        (match r3 with
         | '"' :: r4 =>
           if body.contains '\n' then
             let g2 := (body.reverse.takeWhile (fun ch => ¬ ch = '\n')).reverse
             let g1 := body.take (body.length - g2.length - 1)
             ':' :: ' ' :: '"' :: (g1 ++ [ ' ' ] ++ g2 ++ [ '"' ])
               ++ joinNewlinesAux fuel r4
           else ':' :: joinNewlinesAux fuel rest
         | _ => ':' :: joinNewlinesAux fuel rest)
      | _ => ':' :: joinNewlinesAux fuel rest
    else c :: joinNewlinesAux fuel rest

/-- Fourth textual repair of `_parse_json_safe`. -/
def joinNewlines (l : List Char) : List Char :=
  joinNewlinesAux l.length l

/-- `text.find("{")` / `text.rfind("}")` slice of `_parse_json_safe`. -/
def sliceBraces (l : List Char) : Option (List Char) :=
  match l.findIdx? (fun c => c = lbraceC) with
  | none => none
  | some i =>
    match l.reverse.findIdx? (fun c => c = rbraceC) with
    | none => none
    | some rj =>
      let j := l.length - 1 - rj
      if i < j + 1 then some ((l.drop i).take (j + 1 - i)) else none

/-- The empty string. -/
def emptyStr : String := ""

/-- A code-fence marker. -/
def fenceStr : String := "```"

/-- A JSON code-fence opener. -/
def fenceJsonStr : String := "```json"

/-- The four textual repairs applied in order, then a strict parse. -/
def repairParse (l : List Char) : Option Json :=
  parseDocJ (joinNewlines (replaceRanges (collapseDupCommas (removeTrailingCommas l))))

/-- `_parse_json_safe(text)` (planner.py): strip code fences, strict parse,
brace slice and reparse, then textual repairs and a final parse; `none`
models every raising path. -/
def parseJsonSafe (s : String) : Option Json :=
  if s = "" then none
  else
    let t0 :=
      if listHasPre fenceStr.toList s.toList then
        ((s.replace fenceJsonStr emptyStr).replace fenceStr emptyStr).trim
      else s
    let cs := t0.toList
    match parseDocJ cs with
    | some v => some v
    | none =>
      match sliceBraces cs with
      | some sl =>
        (match parseDocJ sl with
         | some v => some v
         | none => repairParse sl)
      | none => repairParse cs

/-! ## Concrete documents used by the scenario theorems and counterexamples -/

/-- A breakdown section holding only a primary value. -/
def mkSec (v : ℚ) : Option BSection := some ⟨ some v, none, none ⟩

/-- Budget document with category totals (50, 25, 15, 8, 3): each is below
its category cap for `safe_total = 100`, `days = 1`, but they sum to 101. -/
def c1doc : BudgetDoc :=
  ⟨ some 100, some 100, some ⟨ mkSec 50, mkSec 25, mkSec 15, mkSec 8, mkSec 3 ⟩, none ⟩

/-- A day of nine entries costing 7 each (budget 100, 2 days → cap 60). -/
def c2it : CItinerary :=
  ⟨ [ ⟨ List.replicate 9 ⟨ some 7 ⟩, [], none ⟩ ] ⟩

/-- Budget document with category totals (55, 25, 15, 8, 3). -/
def c3bdoc : BudgetDoc :=
  ⟨ some 100, some 100, some ⟨ mkSec 55, mkSec 25, mkSec 15, mkSec 8, mkSec 3 ⟩, none ⟩

/-- A day of one entry costing 12 and eighteen entries costing 3. -/
def c3it : CItinerary :=
  ⟨ [ ⟨ ⟨ some 12 ⟩ :: List.replicate 18 ⟨ some 3 ⟩, [], none ⟩ ] ⟩

/-- A one-day itinerary whose total stays under every cap. -/
def w3it : CItinerary := ⟨ [ ⟨ [ ⟨ some 5 ⟩ ], [], none ⟩ ] ⟩

/-- A small budget document whose clamped totals stay under `safe_total`. -/
def w3bdoc : BudgetDoc :=
  ⟨ some 100, some 100, some ⟨ mkSec 10, mkSec 5, mkSec 5, mkSec 5, mkSec 5 ⟩, none ⟩

/-- The §8 scenario day: activities costing [40, 60, 30]. -/
def c4day : CDay :=
  ⟨ [ ⟨ some 40 ⟩, ⟨ some 60 ⟩, ⟨ some 30 ⟩ ], [], none ⟩

/-- The §8 scenario itinerary. -/
def c4it : CItinerary := ⟨ [ c4day ] ⟩

/-- Three travel-tagged activities whose spans cover all four candidate meal
windows (each 360 minutes long, at 06:30, 12:30 and 18:30). -/
def c5acts : List MEntry :=
  [ ⟨ some "06:30", "flight to rome", "", "", some 360 ⟩,
    ⟨ some "12:30", "train ride", "", "", some 360 ⟩,
    ⟨ some "18:30", "bus tour", "", "", some 360 ⟩ ]

/-- One ordinary morning activity (no travel text). -/
def w5acts : List MEntry :=
  [ ⟨ some "09:00", "museum visit", "", "", some 60 ⟩ ]

/-- A day with no travel-related text at all. -/
def c6day1 : TDay :=
  ⟨ some 1, "relaxing beach day", "",
    [ ⟨ "10:00", "swimming at the beach", "", "", some 20, "", "" ⟩ ], [], some 20 ⟩

/-- A day matching the meal scheduler's keyword set (via `drive`) but none of
the injector's keywords. -/
def c6day2 : TDay :=
  ⟨ some 2, "coastal road day", "",
    [ ⟨ "09:00", "drive to the coast", "", "", some 30, "", "" ⟩ ], [], some 30 ⟩

/-- A two-day schedule where only the second day has (scheduler-)travel text. -/
def c6sched : List TDay := [ c6day1, c6day2 ]

/-- A quote whose `group_price` is negative, so the converted total is 0. -/
def w7quote : TQuote :=
  ⟨ "q1", "flight", "AirX", "", "USD", some 120, some (-5), none, "live", "09:15", "" ⟩

/-- Transport options carrying only `w7quote`. -/
def w7opts : TransportOptions := ⟨ [ w7quote ], some 2, "Delhi", "Rome" ⟩

/-- A one-day itinerary for the transport no-op witness. -/
def w7it : TItinerary := ⟨ [ c6day1 ], none ⟩

/-- A budget document for the transport no-op witness. -/
def w7budget : BudgetDoc := ⟨ some 500, some 100, none, none ⟩

/-- The category key of the smoother examples. -/
def museumStr : String := "museum"

/-- A cost history holding a single observation for `museum`. -/
def c8hist : String → List ℤ :=
  fun c => if c = museumStr then [ 7 ] else []

/-- A museum activity costing 1 (below `0.4 × 7 = 2.8`). -/
def c8entry : SEntry := ⟨ museumStr, none, some 1 ⟩

/-- A cost history whose `museum` average is 20. -/
def w8hist : String → List ℤ :=
  fun c => if c = museumStr then [ 20 ] else []

/-- A museum activity costing 100 (above `2.2 × 20 = 44`). -/
def w8entry : SEntry := ⟨ museumStr, none, some 100 ⟩

/-- The §8 parser scenario input `'{"cost": 3500 - 4500, "ok": true,}'`. -/
def c9input : String := "\x7b\"cost\": 3500 - 4500, \"ok\": true,\x7d"

/-- The cache key of the §8 cache scenario. -/
def w10key : String := "paris|2024-05-01|meals"

/-- An empty geo cache. -/
def w10cache : String → Option (CacheCell ℕ) := fun _ => none

/-! ## Arithmetic facts about the Python primitives -/

theorem mulDenEqNum (a : ℚ) : a * ((a.den : ℕ) : ℚ) = ((a.num : ℤ) : ℚ) := by
  have hd : ((a.den : ℕ) : ℚ) ≠ 0 := by
    exact_mod_cast a.den_nz
  calc a * ((a.den : ℕ) : ℚ)
      = (((a.num : ℤ) : ℚ) / ((a.den : ℕ) : ℚ)) * ((a.den : ℕ) : ℚ) := by
        rw [Rat.num_div_den]
    _ = ((a.num : ℤ) : ℚ) := div_mul_cancel₀ _ hd

theorem qdiv_eq_div (a b : ℚ) : qdiv a b = a / b := by
  rcases eq_or_ne b 0 with hb | hb
  · subst hb
    rw [qdiv]
    norm_num
  · have hbn : ((b.num : ℤ) : ℚ) ≠ 0 := by
      exact_mod_cast Rat.num_ne_zero.mpr hb
    have had : ((a.den : ℕ) : ℚ) ≠ 0 := by exact_mod_cast a.den_nz
    rw [qdiv, Rat.divInt_eq_div]
    push_cast
    rw [div_eq_div_iff (mul_ne_zero had hbn) hb]
    linear_combination ((a.num : ℤ) : ℚ) * mulDenEqNum b - ((b.num : ℤ) : ℚ) * mulDenEqNum a

theorem qdiv_half : qdiv 1 2 = (1/2 : ℚ) := qdiv_eq_div 1 2

theorem pyRound_le_add_half (q : ℚ) : (pyRound q : ℚ) ≤ q + 1/2 := by
  have hf : ((⌊q⌋ : ℤ) : ℚ) ≤ q := Int.floor_le q
  unfold pyRound
  rw [qdiv_half]
  split_ifs with h1 h2 h3
  · linarith
  · push_cast
    linarith
  · linarith
  · push_cast
    have : q - (⌊q⌋ : ℚ) ≤ 1/2 := le_of_not_lt h2
    linarith

theorem pyRound_nonneg {q : ℚ} (h : 0 ≤ q) : 0 ≤ pyRound q := by
  have hf : 0 ≤ ⌊q⌋ := Int.floor_nonneg.mpr h
  unfold pyRound
  split_ifs <;> omega

theorem pyTrunc_nonneg {q : ℚ} (h : 0 ≤ q) : 0 ≤ pyTrunc q := by
  unfold pyTrunc
  rw [if_pos h]
  exact Int.floor_nonneg.mpr h

theorem pyTrunc_le {q : ℚ} (h : 0 ≤ q) : (pyTrunc q : ℚ) ≤ q := by
  unfold pyTrunc
  rw [if_pos h]
  exact Int.floor_le q

theorem pyTrunc_intCast (n : ℤ) : pyTrunc ((n : ℤ) : ℚ) = n := by
  unfold pyTrunc
  split_ifs with h
  · simp
  · push_neg at h
    have : -((n : ℤ) : ℚ) = ((-n : ℤ) : ℚ) := by push_cast; ring
    rw [this, Int.floor_intCast]
    omega

theorem int_le_of_le_add_half {m n : ℤ} (h : (m : ℚ) ≤ (n : ℚ) + 1/2) : m ≤ n := by
  by_contra hc
  push_neg at hc
  have : ((n + 1 : ℤ) : ℚ) ≤ (m : ℚ) := by exact_mod_cast hc
  push_cast at this
  linarith

theorem coerceCost_intCast {n : ℤ} (h : 0 ≤ n) : coerceCost (some ((n : ℤ) : ℚ)) = n := by
  show max 0 (pyTrunc ((n : ℤ) : ℚ)) = n
  rw [pyTrunc_intCast]
  omega

theorem getCost0_intCast (n : ℤ) : getCost0 (some ((n : ℤ) : ℚ)) = ((n : ℤ) : ℚ) := rfl

/-- `scaleVal` with a ratio in `[0, 1]` never increases a non-negative cost. -/
theorem scaleVal_le {r : ℚ} {c : ℤ} (hr1 : r ≤ 1) (hc : 0 ≤ c) :
    scaleVal r c ≤ c := by
  unfold scaleVal
  have hcr : (c : ℚ) * r ≤ (c : ℚ) := by
    calc (c : ℚ) * r ≤ (c : ℚ) * 1 := by
          apply mul_le_mul_of_nonneg_left hr1
          exact_mod_cast hc
      _ = (c : ℚ) := by ring
  have h1 : (pyRound ((c : ℚ) * r) : ℚ) ≤ (c : ℚ) + 1/2 :=
    le_trans (pyRound_le_add_half _) (by linarith)
  have h2 : pyRound ((c : ℚ) * r) ≤ c := int_le_of_le_add_half h1
  omega

theorem scaleVal_nonneg (r : ℚ) (c : ℤ) : 0 ≤ scaleVal r c := le_max_left 0 _

/-- `scaleVal` overshoots the exact scaled value by less than half a unit. -/
theorem scaleVal_le_half {r : ℚ} {c : ℤ} (hr0 : 0 ≤ r) (hc : 0 ≤ c) :
    (scaleVal r c : ℚ) ≤ (c : ℚ) * r + 1/2 := by
  unfold scaleVal
  have hx : 0 ≤ (c : ℚ) * r := mul_nonneg (by exact_mod_cast hc) hr0
  have h0 : 0 ≤ pyRound ((c : ℚ) * r) := pyRound_nonneg hx
  rw [max_eq_right h0]
  exact pyRound_le_add_half _

theorem coerceCost_nonneg (v : Option ℚ) : 0 ≤ coerceCost v := by
  cases v with
  | none => exact le_refl 0
  | some q => exact le_max_left 0 _

/-- A clamped entry value is non-negative and at most `per_entry_cap`. -/
theorem clampVal_bounds {pec : ℚ} (hpec : 0 ≤ pec) (e : CEntry) :
    0 ≤ clampVal pec e ∧ (clampVal pec e : ℚ) ≤ pec := by
  unfold clampVal
  split_ifs with h
  · exact ⟨ pyTrunc_nonneg hpec, pyTrunc_le hpec ⟩
  · push_neg at h
    exact ⟨ coerceCost_nonneg e.cost, h ⟩

/-! ## Claim C4 -/

/-- Claim C4 counterexample: with budget 300 over 5 days the code computes
`per_entry_cap = 21` (the `per_day_base * 0.35` term binds), not 36, and the
day [40, 60, 30] ends with `total_cost = 63`, not 71. -/
theorem c4_counterexample :
    perEntryCap 300 5 ≠ 36 ∧
    (normalizeItineraryCosts c4it 300 5).schedule.map (fun d => getCost0 d.total_cost)
      ≠ [ 71 ] := by
  with_unfolding_all decide

/-- Claim C4 (amended): for the day [40, 60, 30] with budget 300 and 5 days,
`per_day_base = 60`, `per_day_cap = 72`, `per_entry_cap = 21`; the entries
clamp to [21, 21, 21] (sum 63 ≤ 72), no rescaling runs, and
`total_cost = 63`. -/
theorem c4_scenario :
    perDayBaseI 300 5 = 60 ∧ perDayCap 300 5 = 72 ∧ perEntryCap 300 5 = 21 ∧
    normalizeItineraryCosts c4it 300 5 =
      ⟨ [ ⟨ [ ⟨ some 21 ⟩, ⟨ some 21 ⟩, ⟨ some 21 ⟩ ], [], some 63 ⟩ ] ⟩ := by
  with_unfolding_all decide

/-! ## Claim C1: counterexample -/

/-- Claim C1 counterexample: for `c1doc` (category totals 50+25+15+8+3 = 101,
each below its cap) with `total_budget = 100` and one day, the final
proportional rescaling rounds every category back up and the breakdown sum
stays 101 > `safe_total = 100`. -/
theorem c1_counterexample :
    safeTotalOf 100 = 100 ∧
    budgetTrackedSum (normalizeBudgetEstimate c1doc 100 1) = 101 := by
  with_unfolding_all decide

/-! ## Claim C2: counterexample -/

/-- Claim C2 counterexample: nine entries of 7 with budget 100 over 2 days
(`per_day_cap = 60`): the rescale rounds each `7 * 60/63 = 6.67` back to 7,
leaving `total_cost = 63 > 60`. -/
theorem c2_counterexample :
    (normalizeItineraryCosts c2it 100 2).schedule.map (fun d => getCost0 d.total_cost)
      = [ 63 ] ∧
    perDayCap 100 2 = 60 := by
  with_unfolding_all decide

/-! ## Claim C3: counterexample -/

set_option maxRecDepth 8000 in
/-- Claim C3 counterexample: a second application changes the output of both
normalizers. For `c3bdoc` the first pass rescales (55, 25, 15, 8, 3) to
(52, 24, 14, 8, 3) (sum 101 > 100), and the second pass rescales again to
(51, 24, 14, 8, 3); for `c3it` the first pass maps [12, 3×18] to [11, 3×18]
(total 65 > 60) and the second to [10, 3×18]. -/
theorem c3_counterexample :
    normalizeBudgetEstimate (normalizeBudgetEstimate c3bdoc 100 1) 100 1
        ≠ normalizeBudgetEstimate c3bdoc 100 1 ∧
    normalizeItineraryCosts (normalizeItineraryCosts c3it 100 2) 100 2
        ≠ normalizeItineraryCosts c3it 100 2 := by
  with_unfolding_all decide

/-! ## Claim C9 -/

/-- Claim C9: `_parse_json_safe` on `'{"cost": 3500 - 4500, "ok": true,}'`
succeeds with `{"cost": 4000, "ok": true}`: the strict and sliced parses
fail, the trailing comma is removed, and the range `3500 - 4500` becomes the
midpoint `(3500 + 4500) // 2 = 4000`. -/
theorem c9_parser_scenario :
    parseJsonSafe c9input
      = some (Json.obj [ ("cost", Json.num 4000), ("ok", Json.bool true) ]) := rfl

/-! ## Claim C1: amended bound -/

theorem int_le_add_two {m n : ℤ} (h : (m : ℚ) ≤ (n : ℚ) + 5/2) : m ≤ n + 2 := by
  by_contra hcon
  push_neg at hcon
  have h2 : n + 3 ≤ m := by omega
  have h3 : ((n + 3 : ℤ) : ℚ) ≤ (m : ℚ) := by exact_mod_cast h2
  push_cast at h3
  linarith

theorem primValOf_nonneg (s : Option BSection) : 0 ≤ primValOf s := by
  cases s with
  | none => exact le_refl 0
  | some s => exact coerceCost_nonneg s.primary

theorem applySection_primary {cap : ℚ} (hcap : 0 < cap) (pdb : ℚ) (s : BSection) :
    ∃ v : ℤ, (applySection cap pdb s).primary = some ((v : ℤ) : ℚ)
      ∧ 0 ≤ v ∧ (v : ℚ) ≤ cap := by
  refine ⟨ if cap = 0 then coerceCost s.primary
      else pyTrunc (min ((coerceCost s.primary : ℤ) : ℚ) cap), rfl, ?_, ?_ ⟩
  · rw [if_neg (ne_of_gt hcap)]
    apply pyTrunc_nonneg
    exact le_min (by exact_mod_cast coerceCost_nonneg s.primary) (le_of_lt hcap)
  · rw [if_neg (ne_of_gt hcap)]
    have h0 : (0 : ℚ) ≤ min ((coerceCost s.primary : ℤ) : ℚ) cap :=
      le_min (by exact_mod_cast coerceCost_nonneg s.primary) (le_of_lt hcap)
    exact le_trans (pyTrunc_le h0) (min_le_right _ _)

theorem rescale_term_bound {cap r : ℚ} (hcap : 0 < cap) (hr : 0 ≤ r) (pdb : ℚ)
    (os : Option BSection) :
    (primValOf (rescaleSection r (os.map (applySection cap pdb))) : ℚ)
      ≤ (primValOf (os.map (applySection cap pdb)) : ℚ) * r + 1/2 := by
  cases os with
  | none =>
    show ((0 : ℤ) : ℚ) ≤ ((0 : ℤ) : ℚ) * r + 1/2
    norm_num
  | some s =>
    obtain ⟨ v, hp, hv0, _ ⟩ := applySection_primary hcap pdb s
    have hvr : 0 ≤ ((v : ℤ) : ℚ) * r := mul_nonneg (by exact_mod_cast hv0) hr
    have hround : 0 ≤ pyRound (((v : ℤ) : ℚ) * r) := pyRound_nonneg hvr
    have hlhs : primValOf (rescaleSection r ((some s).map (applySection cap pdb)))
        = pyRound (((v : ℤ) : ℚ) * r) := by
      show coerceCost (some ((max 0 (pyRound (getCost0 (applySection cap pdb s).primary * r)) : ℤ) : ℚ))
        = pyRound (((v : ℤ) : ℚ) * r)
      rw [hp]
      rw [getCost0]
      rw [coerceCost_intCast (le_max_left 0 _)]
      omega
    have hrhs : primValOf ((some s).map (applySection cap pdb)) = v := by
      show coerceCost (applySection cap pdb s).primary = v
      rw [hp, coerceCost_intCast hv0]
    rw [hlhs, hrhs]
    exact pyRound_le_add_half _

theorem safeTotalOf_ge (tb : ℚ) : 100 ≤ safeTotalOf tb := le_max_left _ _

theorem safeDaysOf_pos (days : ℤ) : 0 < safeDaysOf days :=
  lt_of_lt_of_le one_pos (le_max_left _ _)

theorem perDayBaseB_pos (tb : ℚ) (days : ℤ) : 0 < perDayBaseB tb days := by
  rw [perDayBaseB, qdiv_eq_div]
  apply div_pos
  · have := safeTotalOf_ge tb
    exact_mod_cast lt_of_lt_of_le (by norm_num : (0:ℤ) < 100) this
  · exact_mod_cast safeDaysOf_pos days

theorem bkSum_clamped_nonneg (pdb : ℚ) (bd : BBreakdown) :
    0 ≤ bkSum (clampedBreakdown pdb bd) := by
  unfold bkSum
  have h1 := primValOf_nonneg (clampedBreakdown pdb bd).accommodation
  have h2 := primValOf_nonneg (clampedBreakdown pdb bd).food
  have h3 := primValOf_nonneg (clampedBreakdown pdb bd).activities
  have h4 := primValOf_nonneg (clampedBreakdown pdb bd).transport
  have h5 := primValOf_nonneg (clampedBreakdown pdb bd).contingency
  omega

theorem bkSum_normBreakdown_le {st : ℤ} (hst : 0 ≤ st) {pdb : ℚ} (hpdb : 0 < pdb)
    (bd : BBreakdown) : bkSum (normBreakdown st pdb bd) ≤ st + 2 := by
  have hq1 : (0:ℚ) < qdiv 11 20 := by rw [qdiv_eq_div]; norm_num
  have hq2 : (0:ℚ) < qdiv 1 4 := by rw [qdiv_eq_div]; norm_num
  have hq3 : (0:ℚ) < qdiv 3 10 := by rw [qdiv_eq_div]; norm_num
  have hq4 : (0:ℚ) < qdiv 7 20 := by rw [qdiv_eq_div]; norm_num
  have hq5 : (0:ℚ) < qdiv 3 20 := by rw [qdiv_eq_div]; norm_num
  simp only [normBreakdown]
  by_cases hc : st < bkSum (clampedBreakdown pdb bd) ∧ 0 < bkSum (clampedBreakdown pdb bd)
  · rw [if_pos hc]
    set T := bkSum (clampedBreakdown pdb bd) with hTdef
    have hT0 : ((T : ℤ) : ℚ) ≠ 0 := by
      exact_mod_cast ne_of_gt hc.2
    set r := qdiv ((st : ℤ) : ℚ) ((T : ℤ) : ℚ) with hrdef
    have hr : 0 ≤ r := by
      rw [hrdef, qdiv_eq_div]
      apply div_nonneg (by exact_mod_cast hst)
      exact_mod_cast le_of_lt hc.2
    have hTr : ((T : ℤ) : ℚ) * r = ((st : ℤ) : ℚ) := by
      rw [hrdef, qdiv_eq_div, mul_div_assoc']
      rw [mul_comm]
      rw [mul_div_assoc]
      rw [div_self hT0, mul_one]
    have b1 := rescale_term_bound (mul_pos hpdb hq1) hr pdb bd.accommodation
    have b2 := rescale_term_bound (mul_pos hpdb hq2) hr pdb bd.food
    have b3 := rescale_term_bound (mul_pos hpdb hq3) hr pdb bd.activities
    have b4 := rescale_term_bound (mul_pos hpdb hq4) hr pdb bd.transport
    have b5 := rescale_term_bound (mul_pos hpdb hq5) hr pdb bd.contingency
    apply int_le_add_two
    have hsum : ((bkSum (rescaleBreakdown r (clampedBreakdown pdb bd)) : ℤ) : ℚ)
        = (primValOf (rescaleSection r (bd.accommodation.map (applySection (pdb * qdiv 11 20) pdb))) : ℚ)
          + (primValOf (rescaleSection r (bd.food.map (applySection (pdb * qdiv 1 4) pdb))) : ℚ)
          + (primValOf (rescaleSection r (bd.activities.map (applySection (pdb * qdiv 3 10) pdb))) : ℚ)
          + (primValOf (rescaleSection r (bd.transport.map (applySection (pdb * qdiv 7 20) pdb))) : ℚ)
          + (primValOf (rescaleSection r (bd.contingency.map (applySection (pdb * qdiv 3 20) pdb))) : ℚ) := by
      simp only [bkSum, rescaleBreakdown, clampedBreakdown]
      push_cast
      ring
    have hTsum : ((T : ℤ) : ℚ)
        = (primValOf (bd.accommodation.map (applySection (pdb * qdiv 11 20) pdb)) : ℚ)
          + (primValOf (bd.food.map (applySection (pdb * qdiv 1 4) pdb)) : ℚ)
          + (primValOf (bd.activities.map (applySection (pdb * qdiv 3 10) pdb)) : ℚ)
          + (primValOf (bd.transport.map (applySection (pdb * qdiv 7 20) pdb)) : ℚ)
          + (primValOf (bd.contingency.map (applySection (pdb * qdiv 3 20) pdb)) : ℚ) := by
      rw [hTdef]
      simp only [bkSum, clampedBreakdown]
      push_cast
      ring
    rw [hsum]
    have hfinal : ((T : ℤ) : ℚ) * r + 5/2 = ((st : ℤ) : ℚ) + 5/2 := by rw [hTr]
    nlinarith [b1, b2, b3, b4, b5, hTsum, hfinal]
  · rw [if_neg hc]
    have hnn := bkSum_clamped_nonneg pdb bd
    by_cases hlt : st < bkSum (clampedBreakdown pdb bd)
    · exfalso
      exact hc ⟨ hlt, lt_of_le_of_lt hst hlt ⟩
    · push_neg at hlt
      omega

theorem normalizeBudgetEstimate_breakdown (b : BudgetDoc) (tb : ℚ) (days : ℤ) :
    (normalizeBudgetEstimate b tb days).breakdown
      = b.breakdown.map (normBreakdown (safeTotalOf tb) (perDayBaseB tb days)) := by
  unfold normalizeBudgetEstimate
  cases b.breakdown <;> rfl

/-- Claim C1 (amended): after `normalize_budget_estimate` the sum of the
clamped category totals is at most `safe_total + 2`: the final rescaling
rounds each of the at most five categories to nearest, so it can overshoot
`safe_total = max(100, round(total_budget))` by up to half a unit per
category, and it really can exceed `safe_total` itself. -/
theorem c1_budget_ceiling (b : BudgetDoc) (tb : ℚ) (days : ℤ) :
    budgetTrackedSum (normalizeBudgetEstimate b tb days) ≤ safeTotalOf tb + 2 := by
  have hst : (0 : ℤ) ≤ safeTotalOf tb := le_trans (by norm_num) (safeTotalOf_ge tb)
  have hbk := normalizeBudgetEstimate_breakdown b tb days
  unfold budgetTrackedSum
  rw [hbk]
  cases b.breakdown with
  | none =>
    show (0 : ℤ) ≤ safeTotalOf tb + 2
    omega
  | some bd =>
    show bkSum (normBreakdown (safeTotalOf tb) (perDayBaseB tb days) bd) ≤ safeTotalOf tb + 2
    exact bkSum_normBreakdown_le hst (perDayBaseB_pos tb days) bd

/-! ## Claim C2: day totals -/

theorem listSumCast (l : List ℤ) :
    ((l.sum : ℤ) : ℚ) = (l.map (fun c : ℤ => ((c : ℤ) : ℚ))).sum := by
  induction l with
  | nil => simp
  | cons a t ih =>
    simp only [List.sum_cons, List.map_cons]
    push_cast
    rw [← ih]

theorem scaleList_sum_le {r : ℚ} (hr : 0 ≤ r) (l : List ℤ) (hl : ∀ c ∈ l, 0 ≤ c) :
    (((l.map (scaleVal r)).sum : ℤ) : ℚ) ≤ ((l.sum : ℤ) : ℚ) * r + (l.length : ℚ) / 2 := by
  induction l with
  | nil => simp
  | cons a t ih =>
    have ha := hl a (List.mem_cons_self a t)
    have iht := ih (fun c hc => hl c (List.mem_cons_of_mem _ hc))
    have hs := scaleVal_le_half hr ha
    simp only [List.map_cons, List.sum_cons, List.length_cons]
    push_cast
    push_cast at iht hs
    linarith

theorem clampList_bounds {pec : ℚ} (hpec : 0 ≤ pec) (l : List CEntry) :
    ∀ c ∈ l.map (clampVal pec), 0 ≤ c ∧ (c : ℚ) ≤ pec := by
  intro c hc
  rw [List.mem_map] at hc
  obtain ⟨ e, _, rfl ⟩ := hc
  exact clampVal_bounds hpec e

theorem scaleList_bounds {pec r : ℚ} (hr1 : r ≤ 1) (l : List ℤ)
    (hl : ∀ c ∈ l, 0 ≤ c ∧ (c : ℚ) ≤ pec) :
    ∀ c ∈ l.map (scaleVal r), 0 ≤ c ∧ (c : ℚ) ≤ pec := by
  intro c hc
  rw [List.mem_map] at hc
  obtain ⟨ a, ha, rfl ⟩ := hc
  obtain ⟨ ha0, hap ⟩ := hl a ha
  refine ⟨ scaleVal_nonneg r a, ?_ ⟩
  have hle := scaleVal_le hr1 ha0
  calc ((scaleVal r a : ℤ) : ℚ) ≤ ((a : ℤ) : ℚ) := by exact_mod_cast hle
    _ ≤ pec := hap

/-- Characterization of `normDay`: the output lists int-valued costs in
`[0, per_entry_cap]`, its `total_cost` is their sum, and that sum is at most
`per_day_cap` plus half the number of entries. -/
theorem normDay_spec {pec cap : ℚ} (hpec : 0 ≤ pec) (hcap : 0 ≤ cap) (d : CDay) :
    ∃ fa fm : List ℤ,
      normDay pec cap d =
        { activities := fa.map (fun c : ℤ => ⟨ some ((c : ℤ) : ℚ) ⟩),
          meals := fm.map (fun c : ℤ => ⟨ some ((c : ℤ) : ℚ) ⟩),
          total_cost := some (((fa.sum + fm.sum : ℤ)) : ℚ) }
      ∧ fa.length = d.activities.length ∧ fm.length = d.meals.length
      ∧ (∀ c ∈ fa, 0 ≤ c ∧ (c : ℚ) ≤ pec) ∧ (∀ c ∈ fm, 0 ≤ c ∧ (c : ℚ) ≤ pec)
      ∧ ((fa.sum + fm.sum : ℤ) : ℚ)
          ≤ cap + ((d.activities.length + d.meals.length : ℕ) : ℚ) / 2 := by
  have hav := clampList_bounds hpec d.activities
  have hmv := clampList_bounds hpec d.meals
  have havs : 0 ≤ (d.activities.map (clampVal pec)).sum :=
    List.sum_nonneg (fun c hc => (hav c hc).1)
  have hmvs : 0 ≤ (d.meals.map (clampVal pec)).sum :=
    List.sum_nonneg (fun c hc => (hmv c hc).1)
  have hm2 : (0 : ℚ) ≤ ((d.activities.length + d.meals.length : ℕ) : ℚ) / 2 := by
    positivity
  simp only [normDay]
  by_cases hc : cap < (((d.activities.map (clampVal pec)).sum
        + (d.meals.map (clampVal pec)).sum : ℤ) : ℚ)
      ∧ 0 < (d.activities.map (clampVal pec)).sum + (d.meals.map (clampVal pec)).sum
  · rw [if_pos hc]
    set T : ℤ := (d.activities.map (clampVal pec)).sum + (d.meals.map (clampVal pec)).sum
      with hTdef
    have hT0 : ((T : ℤ) : ℚ) ≠ 0 := by exact_mod_cast ne_of_gt hc.2
    have hTpos : (0 : ℚ) < ((T : ℤ) : ℚ) := by exact_mod_cast hc.2
    set r : ℚ := qdiv cap ((T : ℤ) : ℚ) with hrdef
    have hreq : r = cap / ((T : ℤ) : ℚ) := by rw [hrdef, qdiv_eq_div]
    have hr0 : 0 ≤ r := by
      rw [hreq]
      exact div_nonneg hcap (le_of_lt hTpos)
    have hr1 : r ≤ 1 := by
      rw [hreq]
      exact le_of_lt ((div_lt_one hTpos).mpr hc.1)
    have hTr : ((T : ℤ) : ℚ) * r = cap := by
      rw [hreq, mul_div_assoc']
      rw [mul_comm, mul_div_assoc, div_self hT0, mul_one]
    refine ⟨ (d.activities.map (clampVal pec)).map (scaleVal r),
      (d.meals.map (clampVal pec)).map (scaleVal r), rfl,
      by simp [List.length_map], by simp [List.length_map],
      scaleList_bounds hr1 _ hav, scaleList_bounds hr1 _ hmv, ?_ ⟩
    have s1 := scaleList_sum_le hr0 (d.activities.map (clampVal pec))
      (fun c hc2 => (hav c hc2).1)
    have s2 := scaleList_sum_le hr0 (d.meals.map (clampVal pec))
      (fun c hc2 => (hmv c hc2).1)
    rw [List.length_map] at s1 s2
    have hsplit : ((T : ℤ) : ℚ)
        = (((d.activities.map (clampVal pec)).sum : ℤ) : ℚ)
          + (((d.meals.map (clampVal pec)).sum : ℤ) : ℚ) := by
      rw [hTdef]
      push_cast
      ring
    have hdist : (((d.activities.map (clampVal pec)).sum : ℤ) : ℚ) * r
        + (((d.meals.map (clampVal pec)).sum : ℤ) : ℚ) * r = cap := by
      have h' := hTr
      rw [hsplit] at h'
      linear_combination h'
    have hgoalL : ((((d.activities.map (clampVal pec)).map (scaleVal r)).sum
          + ((d.meals.map (clampVal pec)).map (scaleVal r)).sum : ℤ) : ℚ)
        = ((((d.activities.map (clampVal pec)).map (scaleVal r)).sum : ℤ) : ℚ)
          + ((((d.meals.map (clampVal pec)).map (scaleVal r)).sum : ℤ) : ℚ) := by
      push_cast
      ring
    have hgoalR : ((d.activities.length + d.meals.length : ℕ) : ℚ)
        = (d.activities.length : ℚ) + (d.meals.length : ℚ) := by
      push_cast
      ring
    rw [hgoalL, hgoalR]
    linarith [s1, s2, hdist]
  · rw [if_neg hc]
    refine ⟨ d.activities.map (clampVal pec), d.meals.map (clampVal pec), rfl,
      by simp [List.length_map], by simp [List.length_map], hav, hmv, ?_ ⟩
    rcases not_and_or.mp hc with h1 | h2
    · push_neg at h1
      linarith [hm2, h1]
    · push_neg at h2
      have hz : (d.activities.map (clampVal pec)).sum + (d.meals.map (clampVal pec)).sum = 0 := by
        omega
      rw [hz]
      have h0 : (((0 : ℤ)) : ℚ) = 0 := by norm_num
      rw [h0]
      linarith [hm2, hcap]

theorem perEntryCap_nonneg (tb : ℚ) (days : ℤ) : 0 ≤ perEntryCap tb days :=
  le_trans (by norm_num) (le_max_left 10 _)

theorem perDayCap_nonneg (tb : ℚ) (days : ℤ) : 0 ≤ perDayCap tb days :=
  le_trans (by norm_num) (le_max_left 60 _)

/-- Claim C2 (amended): after `normalize_itinerary_costs`, every day's
`total_cost` equals the sum of its entry costs, and exceeds `per_day_cap` by
at most half a unit per entry (the per-entry rescale rounds to nearest, so
`total_cost ≤ per_day_cap` itself can fail). -/
theorem c2_day_totals (it : CItinerary) (tb : ℚ) (days : ℤ) :
    ∀ d ∈ (normalizeItineraryCosts it tb days).schedule,
      getCost0 d.total_cost = sumEntryCosts d ∧
      getCost0 d.total_cost ≤ perDayCap tb days + ((numEntries d : ℕ) : ℚ) / 2 := by
  intro d hd
  rw [normalizeItineraryCosts] at hd
  rw [List.mem_map] at hd
  obtain ⟨ d0, _, rfl ⟩ := hd
  obtain ⟨ fa, fm, heq, hla, hlm, _, _, hsum ⟩ :=
    normDay_spec (perEntryCap_nonneg tb days) (perDayCap_nonneg tb days) d0
  rw [heq]
  have hmapsum : ∀ l : List ℤ,
      ((l.map (fun c => (⟨ some ((c : ℤ) : ℚ) ⟩ : CEntry))).map (fun e => getCost0 e.cost)).sum
        = ((l.sum : ℤ) : ℚ) := by
    intro l
    rw [List.map_map]
    rw [listSumCast l]
    rfl
  constructor
  · show ((fa.sum + fm.sum : ℤ) : ℚ) = sumEntryCosts _
    unfold sumEntryCosts
    rw [hmapsum fa, hmapsum fm]
    push_cast
    ring
  · show ((fa.sum + fm.sum : ℤ) : ℚ)
      ≤ perDayCap tb days + ((numEntries _ : ℕ) : ℚ) / 2
    have hne : numEntries
        ({ activities := fa.map (fun c => ⟨ some ((c : ℤ) : ℚ) ⟩),
           meals := fm.map (fun c => ⟨ some ((c : ℤ) : ℚ) ⟩),
           total_cost := some (((fa.sum + fm.sum : ℤ)) : ℚ) } : CDay)
        = d0.activities.length + d0.meals.length := by
      unfold numEntries
      simp [List.length_map, hla, hlm]
    rw [hne]
    exact hsum

/-- Claim C2 witness: the bound instantiated on a concrete normalized day. -/
theorem c2_day_totals_witness :
    getCost0 (⟨ [ ⟨ some 5 ⟩ ], [], some 5 ⟩ : CDay).total_cost
        = sumEntryCosts ⟨ [ ⟨ some 5 ⟩ ], [], some 5 ⟩ ∧
    getCost0 (⟨ [ ⟨ some 5 ⟩ ], [], some 5 ⟩ : CDay).total_cost
        ≤ perDayCap 100 2 + ((numEntries ⟨ [ ⟨ some 5 ⟩ ], [], some 5 ⟩ : ℕ) : ℚ) / 2 :=
  c2_day_totals w3it 100 2 ⟨ [ ⟨ some 5 ⟩ ], [], some 5 ⟩ (by with_unfolding_all decide)

/-! ## Claim C3: conditional idempotence -/

theorem listMapCongr {α β : Type} (l : List α) (f g : α → β)
    (h : ∀ a ∈ l, f a = g a) : l.map f = l.map g := by
  induction l with
  | nil => rfl
  | cons a t ih =>
    simp only [List.map_cons]
    rw [h a (List.mem_cons_self a t), ih (fun b hb => h b (List.mem_cons_of_mem _ hb))]

theorem clampVal_intCast {pec : ℚ} {c : ℤ} (h0 : 0 ≤ c) (hle : (c : ℚ) ≤ pec) :
    clampVal pec ⟨ some ((c : ℤ) : ℚ) ⟩ = c := by
  unfold clampVal
  rw [coerceCost_intCast h0]
  rw [if_neg (not_lt.mpr hle)]

/-- `normDay` is a no-op on its own output when that output's total does not
exceed `per_day_cap`. -/
theorem normDay_idem {pec cap : ℚ} (hpec : 0 ≤ pec) (hcap : 0 ≤ cap) (d : CDay)
    (h : getCost0 (normDay pec cap d).total_cost ≤ cap) :
    normDay pec cap (normDay pec cap d) = normDay pec cap d := by
  obtain ⟨ fa, fm, heq, _, _, hba, hbm, _ ⟩ := normDay_spec hpec hcap d
  rw [heq] at h ⊢
  have hT : ((fa.sum + fm.sum : ℤ) : ℚ) ≤ cap := h
  have hclampa : (fa.map (fun c : ℤ => (⟨ some ((c : ℤ) : ℚ) ⟩ : CEntry))).map (clampVal pec)
      = fa := by
    rw [List.map_map]
    calc fa.map ((clampVal pec) ∘ (fun c : ℤ => (⟨ some ((c : ℤ) : ℚ) ⟩ : CEntry)))
        = fa.map (fun c => c) := listMapCongr fa _ _
          (fun c hc => clampVal_intCast (hba c hc).1 (hba c hc).2)
      _ = fa := List.map_id' fa
  have hclampm : (fm.map (fun c : ℤ => (⟨ some ((c : ℤ) : ℚ) ⟩ : CEntry))).map (clampVal pec)
      = fm := by
    rw [List.map_map]
    calc fm.map ((clampVal pec) ∘ (fun c : ℤ => (⟨ some ((c : ℤ) : ℚ) ⟩ : CEntry)))
        = fm.map (fun c => c) := listMapCongr fm _ _
          (fun c hc => clampVal_intCast (hbm c hc).1 (hbm c hc).2)
      _ = fm := List.map_id' fm
  show normDay pec cap _ = _
  simp only [normDay]
  rw [hclampa, hclampm]
  have hni : ¬ (cap < ((fa.sum + fm.sum : ℤ) : ℚ) ∧ 0 < fa.sum + fm.sum) :=
    fun hcond => absurd hcond.1 (not_lt.mpr hT)
  rw [if_neg hni]

/-- Claim C3, itinerary half (amended): `normalize_itinerary_costs` is
idempotent whenever its output's day totals are within `per_day_cap`. -/
theorem normalizeItineraryCosts_idem (it : CItinerary) (tb : ℚ) (days : ℤ)
    (h : ∀ d ∈ (normalizeItineraryCosts it tb days).schedule,
      getCost0 d.total_cost ≤ perDayCap tb days) :
    normalizeItineraryCosts (normalizeItineraryCosts it tb days) tb days
      = normalizeItineraryCosts it tb days := by
  unfold normalizeItineraryCosts at h ⊢
  simp only [List.mem_map] at h
  congr 1
  rw [List.map_map]
  apply listMapCongr
  intro d0 hd0
  show normDay _ _ (normDay _ _ d0) = normDay _ _ d0
  apply normDay_idem (perEntryCap_nonneg tb days) (perDayCap_nonneg tb days)
  exact h _ ⟨ d0, hd0, rfl ⟩

theorem clampBudgetField_bounds {ceiling : ℤ} (hc : 1 ≤ ceiling) (v : Option ℚ) :
    1 ≤ clampBudgetField ceiling v ∧ clampBudgetField ceiling v ≤ ceiling := by
  unfold clampBudgetField
  have h0 := coerceCost_nonneg v
  split_ifs with h
  · omega
  · constructor
    · exact le_min hc (by omega)
    · exact min_le_left _ _

/-- A clamped top-level budget field is a fixed point of the clamp. -/
theorem clampBudgetField_idem {ceiling : ℤ} (hc : 1 ≤ ceiling) (v : Option ℚ) :
    clampBudgetField ceiling (some ((clampBudgetField ceiling v : ℤ) : ℚ))
      = clampBudgetField ceiling v := by
  obtain ⟨ h1, h2 ⟩ := clampBudgetField_bounds hc v
  conv_lhs => rw [clampBudgetField]
  rw [coerceCost_intCast (by omega)]
  rw [if_neg (by omega)]
  omega

theorem clampSubField_nonneg_le {cap2 : ℚ} (h : 0 ≤ cap2) (x : ℚ) :
    0 ≤ clampSubField cap2 x ∧ ((clampSubField cap2 x : ℤ) : ℚ) ≤ cap2 := by
  have hm : (0 : ℚ) ≤ min ((coerceCost (some x) : ℤ) : ℚ) cap2 :=
    le_min (by exact_mod_cast coerceCost_nonneg (some x)) h
  exact ⟨ pyTrunc_nonneg hm, le_trans (pyTrunc_le hm) (min_le_right _ _) ⟩

theorem clampSubField_idem {cap2 : ℚ} (h : 0 ≤ cap2) (x : ℚ) :
    clampSubField cap2 ((clampSubField cap2 x : ℤ) : ℚ) = clampSubField cap2 x := by
  obtain ⟨ hw0, hwc ⟩ := clampSubField_nonneg_le h x
  conv_lhs => rw [clampSubField]
  rw [coerceCost_intCast hw0, min_eq_left hwc, pyTrunc_intCast]

/-- `applySection` fixes any section whose primary is a clamped integer and
whose sub-fields already carry the clamped form. -/
theorem applySection_fix {cap pdb : ℚ} (hcap : 0 < cap) (hpdb : 0 ≤ pdb)
    {s B : BSection} (w : ℤ)
    (hp : B.primary = some ((w : ℤ) : ℚ)) (hw0 : 0 ≤ w) (hwc : (w : ℚ) ≤ cap)
    (hn : B.per_night = (applySection cap pdb s).per_night)
    (hd : B.per_day = (applySection cap pdb s).per_day) :
    applySection cap pdb B = B := by
  have hq1 : (0 : ℚ) ≤ qdiv 11 20 := by rw [qdiv_eq_div]; norm_num
  have hq2 : (0 : ℚ) ≤ qdiv 1 4 := by rw [qdiv_eq_div]; norm_num
  have hcap1 : 0 ≤ pdb * qdiv 11 20 := mul_nonneg hpdb hq1
  have hcap2 : 0 ≤ pdb * qdiv 1 4 := mul_nonneg hpdb hq2
  have hprim : (applySection cap pdb B).primary = B.primary := by
    show some (((if cap = 0 then coerceCost B.primary
        else pyTrunc (min ((coerceCost B.primary : ℤ) : ℚ) cap)) : ℤ) : ℚ) = B.primary
    rw [hp, coerceCost_intCast hw0, if_neg (ne_of_gt hcap), min_eq_left hwc, pyTrunc_intCast]
  have hpn : (applySection cap pdb B).per_night = B.per_night := by
    show B.per_night.map _ = B.per_night
    rw [hn]
    show ((s.per_night.map _).map _) = s.per_night.map _
    cases s.per_night with
    | none => rfl
    | some pn =>
      show some ((clampSubField (pdb * qdiv 11 20)
          ((clampSubField (pdb * qdiv 11 20) pn : ℤ) : ℚ) : ℤ) : ℚ)
        = some ((clampSubField (pdb * qdiv 11 20) pn : ℤ) : ℚ)
      rw [clampSubField_idem hcap1 pn]
  have hpd : (applySection cap pdb B).per_day = B.per_day := by
    show B.per_day.map _ = B.per_day
    rw [hd]
    show ((s.per_day.map _).map _) = s.per_day.map _
    cases s.per_day with
    | none => rfl
    | some pd =>
      show some ((clampSubField (pdb * qdiv 1 4)
          ((clampSubField (pdb * qdiv 1 4) pd : ℤ) : ℚ) : ℤ) : ℚ)
        = some ((clampSubField (pdb * qdiv 1 4) pd : ℤ) : ℚ)
      rw [clampSubField_idem hcap2 pd]
  calc applySection cap pdb B
      = ⟨ (applySection cap pdb B).primary, (applySection cap pdb B).per_night,
          (applySection cap pdb B).per_day ⟩ := rfl
    _ = ⟨ B.primary, B.per_night, B.per_day ⟩ := by rw [hprim, hpn, hpd]
    _ = B := rfl

theorem applySection_applySection {cap pdb : ℚ} (hcap : 0 < cap) (hpdb : 0 ≤ pdb)
    (s : BSection) :
    applySection cap pdb (applySection cap pdb s) = applySection cap pdb s := by
  obtain ⟨ v, hp, hv0, hvc ⟩ := applySection_primary hcap pdb s
  exact applySection_fix hcap hpdb v hp hv0 hvc rfl rfl

theorem optClampStable_apply {cap pdb : ℚ} (hcap : 0 < cap) (hpdb : 0 ≤ pdb)
    (os : Option BSection) :
    Option.map (applySection cap pdb) (os.map (applySection cap pdb))
      = os.map (applySection cap pdb) := by
  cases os with
  | none => rfl
  | some s => exact congrArg some (applySection_applySection hcap hpdb s)

theorem optClampStable_rescale {cap pdb r : ℚ} (hcap : 0 < cap) (hpdb : 0 ≤ pdb)
    (hr0 : 0 ≤ r) (hr1 : r ≤ 1) (os : Option BSection) :
    Option.map (applySection cap pdb) (rescaleSection r (os.map (applySection cap pdb)))
      = rescaleSection r (os.map (applySection cap pdb)) := by
  cases os with
  | none => rfl
  | some s =>
    obtain ⟨ v, hp, hv0, hvc ⟩ := applySection_primary hcap pdb s
    have hv0q : (0 : ℚ) ≤ ((v : ℤ) : ℚ) := by exact_mod_cast hv0
    have hvr : ((v : ℤ) : ℚ) * r ≤ ((v : ℤ) : ℚ) := mul_le_of_le_one_right hv0q hr1
    have h1 : pyRound (((v : ℤ) : ℚ) * r) ≤ v :=
      int_le_of_le_add_half (le_trans (pyRound_le_add_half _) (by linarith))
    have hm0 : 0 ≤ max 0 (pyRound (getCost0 (applySection cap pdb s).primary * r)) :=
      le_max_left _ _
    have hmc : ((max 0 (pyRound (getCost0 (applySection cap pdb s).primary * r)) : ℤ) : ℚ)
        ≤ cap := by
      rw [hp]
      show ((max 0 (pyRound (((v : ℤ) : ℚ) * r)) : ℤ) : ℚ) ≤ cap
      calc ((max 0 (pyRound (((v : ℤ) : ℚ) * r)) : ℤ) : ℚ) ≤ ((v : ℤ) : ℚ) := by
            exact_mod_cast max_le hv0 h1
        _ ≤ cap := hvc
    exact congrArg some (applySection_fix hcap hpdb _ rfl hm0 hmc rfl rfl)

theorem normBreakdown_eq (st : ℤ) (pdb : ℚ) (bd : BBreakdown) :
    normBreakdown st pdb bd =
      if st < bkSum (clampedBreakdown pdb bd) ∧ 0 < bkSum (clampedBreakdown pdb bd) then
        rescaleBreakdown
          (qdiv ((st : ℤ) : ℚ) ((bkSum (clampedBreakdown pdb bd) : ℤ) : ℚ))
          (clampedBreakdown pdb bd)
      else clampedBreakdown pdb bd := rfl

/-- Re-clamping the output of `normBreakdown` changes nothing. -/
theorem clampedBreakdown_stable {st : ℤ} (hst : 0 ≤ st) {pdb : ℚ} (hpdb : 0 < pdb)
    (bd : BBreakdown) :
    clampedBreakdown pdb (normBreakdown st pdb bd) = normBreakdown st pdb bd := by
  have hq1 : (0:ℚ) < qdiv 11 20 := by rw [qdiv_eq_div]; norm_num
  have hq2 : (0:ℚ) < qdiv 1 4 := by rw [qdiv_eq_div]; norm_num
  have hq3 : (0:ℚ) < qdiv 3 10 := by rw [qdiv_eq_div]; norm_num
  have hq4 : (0:ℚ) < qdiv 7 20 := by rw [qdiv_eq_div]; norm_num
  have hq5 : (0:ℚ) < qdiv 3 20 := by rw [qdiv_eq_div]; norm_num
  rw [normBreakdown_eq]
  by_cases hc : st < bkSum (clampedBreakdown pdb bd) ∧ 0 < bkSum (clampedBreakdown pdb bd)
  · rw [if_pos hc]
    have hTpos : (0 : ℚ) < ((bkSum (clampedBreakdown pdb bd) : ℤ) : ℚ) := by
      exact_mod_cast hc.2
    have hr0 : 0 ≤ qdiv ((st : ℤ) : ℚ) ((bkSum (clampedBreakdown pdb bd) : ℤ) : ℚ) := by
      rw [qdiv_eq_div]
      exact div_nonneg (by exact_mod_cast hst) (le_of_lt hTpos)
    have hr1 : qdiv ((st : ℤ) : ℚ) ((bkSum (clampedBreakdown pdb bd) : ℤ) : ℚ) ≤ 1 := by
      rw [qdiv_eq_div]
      apply le_of_lt ((div_lt_one hTpos).mpr ?_)
      exact_mod_cast hc.1
    show clampedBreakdown pdb (rescaleBreakdown _ (clampedBreakdown pdb bd))
      = rescaleBreakdown _ (clampedBreakdown pdb bd)
    simp only [clampedBreakdown, rescaleBreakdown]
    congr 1
    · exact optClampStable_rescale (mul_pos hpdb hq1) (le_of_lt hpdb) hr0 hr1 bd.accommodation
    · exact optClampStable_rescale (mul_pos hpdb hq2) (le_of_lt hpdb) hr0 hr1 bd.food
    · exact optClampStable_rescale (mul_pos hpdb hq3) (le_of_lt hpdb) hr0 hr1 bd.activities
    · exact optClampStable_rescale (mul_pos hpdb hq4) (le_of_lt hpdb) hr0 hr1 bd.transport
    · exact optClampStable_rescale (mul_pos hpdb hq5) (le_of_lt hpdb) hr0 hr1 bd.contingency
  · rw [if_neg hc]
    show clampedBreakdown pdb (clampedBreakdown pdb bd) = clampedBreakdown pdb bd
    simp only [clampedBreakdown]
    congr 1
    · exact optClampStable_apply (mul_pos hpdb hq1) (le_of_lt hpdb) bd.accommodation
    · exact optClampStable_apply (mul_pos hpdb hq2) (le_of_lt hpdb) bd.food
    · exact optClampStable_apply (mul_pos hpdb hq3) (le_of_lt hpdb) bd.activities
    · exact optClampStable_apply (mul_pos hpdb hq4) (le_of_lt hpdb) bd.transport
    · exact optClampStable_apply (mul_pos hpdb hq5) (le_of_lt hpdb) bd.contingency

theorem normBreakdown_idem {st : ℤ} (hst : 0 ≤ st) {pdb : ℚ} (hpdb : 0 < pdb)
    (bd : BBreakdown) (h : bkSum (normBreakdown st pdb bd) ≤ st) :
    normBreakdown st pdb (normBreakdown st pdb bd) = normBreakdown st pdb bd := by
  rw [normBreakdown_eq st pdb (normBreakdown st pdb bd)]
  rw [clampedBreakdown_stable hst hpdb bd]
  rw [if_neg (fun hcond => absurd hcond.1 (not_lt.mpr h))]

theorem nbe_eq (b : BudgetDoc) (tb : ℚ) (days : ℤ) :
    normalizeBudgetEstimate b tb days =
      ⟨ some ((clampBudgetField (safeTotalOf tb) b.total_budget : ℤ) : ℚ),
        some ((clampBudgetField (safeDailyOf tb days) b.daily_budget : ℤ) : ℚ),
        b.breakdown.map (normBreakdown (safeTotalOf tb) (perDayBaseB tb days)),
        b.meta_transport ⟩ := by
  unfold normalizeBudgetEstimate
  cases b.breakdown <;> rfl

/-- Budget half of the conditional idempotence: `normalize_budget_estimate`
is idempotent whenever its output's tracked category sum is within
`safe_total`. -/
theorem normalizeBudgetEstimate_idem (b : BudgetDoc) (tb : ℚ) (days : ℤ)
    (h : budgetTrackedSum (normalizeBudgetEstimate b tb days) ≤ safeTotalOf tb) :
    normalizeBudgetEstimate (normalizeBudgetEstimate b tb days) tb days
      = normalizeBudgetEstimate b tb days := by
  have hst1 : (1 : ℤ) ≤ safeTotalOf tb := le_trans (by norm_num) (safeTotalOf_ge tb)
  have hsd1 : (1 : ℤ) ≤ safeDailyOf tb days := le_trans (by norm_num) (le_max_left 40 _)
  have hst0 : (0 : ℤ) ≤ safeTotalOf tb := by omega
  rw [nbe_eq (normalizeBudgetEstimate b tb days) tb days]
  rw [nbe_eq b tb days]
  congr 1
  · rw [clampBudgetField_idem hst1]
  · rw [clampBudgetField_idem hsd1]
  · cases hbd : b.breakdown with
    | none => rfl
    | some bd =>
      have hsum : bkSum (normBreakdown (safeTotalOf tb) (perDayBaseB tb days) bd)
          ≤ safeTotalOf tb := by
        rw [nbe_eq b tb days] at h
        unfold budgetTrackedSum at h
        rw [hbd] at h
        exact h
      exact congrArg some
        (normBreakdown_idem hst0 (perDayBaseB_pos tb days) bd hsum)

/-- Claim C3 (amended): both normalizers are idempotent on every input whose
normalized output already satisfies the respective cap (day totals within
`per_day_cap`; tracked budget sum within `safe_total`). When the
nearest-integer rescale leaves a total above the cap, a second application
can rescale again and change the document. -/
theorem c3_conditional_idempotence :
    (∀ (it : CItinerary) (tb : ℚ) (days : ℤ),
      (∀ d ∈ (normalizeItineraryCosts it tb days).schedule,
        getCost0 d.total_cost ≤ perDayCap tb days) →
      normalizeItineraryCosts (normalizeItineraryCosts it tb days) tb days
        = normalizeItineraryCosts it tb days)
    ∧ (∀ (b : BudgetDoc) (tb : ℚ) (days : ℤ),
      budgetTrackedSum (normalizeBudgetEstimate b tb days) ≤ safeTotalOf tb →
      normalizeBudgetEstimate (normalizeBudgetEstimate b tb days) tb days
        = normalizeBudgetEstimate b tb days) :=
  ⟨ normalizeItineraryCosts_idem, normalizeBudgetEstimate_idem ⟩

/-- Claim C3 witness: both conditional idempotence statements instantiated on
concrete in-cap documents. -/
theorem c3_conditional_idempotence_witness :
    normalizeItineraryCosts (normalizeItineraryCosts w3it 100 2) 100 2
        = normalizeItineraryCosts w3it 100 2
    ∧ normalizeBudgetEstimate (normalizeBudgetEstimate w3bdoc 100 1) 100 1
        = normalizeBudgetEstimate w3bdoc 100 1 :=
  ⟨ c3_conditional_idempotence.1 w3it 100 2 (by with_unfolding_all decide),
    c3_conditional_idempotence.2 w3bdoc 100 1 (by with_unfolding_all decide) ⟩

/-! ## Claim C5: meal scheduler slots -/

/-- Claim C5 counterexample: on a day of back-to-back travel activities the
candidate pass returns nothing and `schedule_meals` synthesizes the fallback
snack slot, whose window overlaps a travel-tagged activity's span. -/
theorem c5_counterexample :
    ∃ s ∈ scheduleMeals c5acts, overlapsTravel s.window.1 s.window.2 c5acts = true := by
  with_unfolding_all decide

theorem candidateSlots_foldl_inv (acts : List MEntry) (dw : ℤ × ℤ) :
    ∀ (ws : List MealWindow) (acc : List MealSlot),
      (∀ s ∈ acc, overlapsTravel s.window.1 s.window.2 acts = false) →
      ∀ s ∈ ws.foldl (fun acc w =>
          if 3 ≤ acc.length then acc
          else if w.wend < dw.1 - 60 ∨ dw.2 + 60 < w.wstart then acc
          else if overlapsTravel w.wstart w.wend acts then acc
          else acc ++ [ mkWindowSlot dw.1 dw.2 w ]) acc,
        overlapsTravel s.window.1 s.window.2 acts = false := by
  intro ws
  induction ws with
  | nil => intro acc hacc s hs; exact hacc s hs
  | cons w rest ih =>
    intro acc hacc s hs
    simp only [List.foldl_cons] at hs
    refine ih _ ?_ s hs
    split_ifs with h1 h2 h3
    · exact hacc
    · exact hacc
    · exact hacc
    · intro t ht
      rcases List.mem_append.mp ht with hl | hr
      · exact hacc t hl
      · have htw : t = mkWindowSlot dw.1 dw.2 w := List.mem_singleton.mp hr
        rw [htw]
        show overlapsTravel w.wstart w.wend acts = false
        cases hb : overlapsTravel w.wstart w.wend acts with
        | false => rfl
        | true => exact absurd hb h3

theorem candidateSlots_no_overlap (acts : List MEntry) :
    ∀ s ∈ candidateSlots acts, overlapsTravel s.window.1 s.window.2 acts = false := by
  intro s hs
  exact candidateSlots_foldl_inv acts (inferDayWindow acts) mealWindows []
    (fun t ht => absurd ht (List.not_mem_nil t)) s hs

theorem scheduleMeals_eq (acts : List MEntry) :
    scheduleMeals acts =
      (if (candidateSlots acts).isEmpty ∧ ¬ acts.isEmpty then
        [ fallbackSnackSlot
            (pyTrunc (qdiv (((inferDayWindow acts).1 + (inferDayWindow acts).2 : ℤ) : ℚ) 2)) ]
      else candidateSlots acts).take 3 := rfl

/-- Claim C5 (amended): `schedule_meals` returns at most 3 slots, and whenever
the candidate pass yields at least one qualifying window every returned slot's
window avoids travel-tagged activity spans; the travel-avoidance guarantee
does not extend to the synthetic fallback snack slot. -/
theorem c5_meal_scheduler (acts : List MEntry) :
    (scheduleMeals acts).length ≤ 3
    ∧ (candidateSlots acts ≠ [] →
        ∀ s ∈ scheduleMeals acts, overlapsTravel s.window.1 s.window.2 acts = false) := by
  constructor
  · rw [scheduleMeals_eq, List.length_take]
    exact min_le_left _ _
  · intro hne s hs
    have hcond : ¬ ((candidateSlots acts).isEmpty ∧ ¬ acts.isEmpty) := by
      intro hc
      exact hne (List.isEmpty_iff.mp hc.1)
    rw [scheduleMeals_eq, if_neg hcond] at hs
    exact candidateSlots_no_overlap acts s (List.mem_of_mem_take hs)

/-- Claim C5 witness: a day with one ordinary morning activity has qualifying
candidate windows and all of its scheduled slots avoid travel spans. -/
theorem c5_meal_scheduler_witness :
    candidateSlots w5acts ≠ []
    ∧ ∀ s ∈ scheduleMeals w5acts, overlapsTravel s.window.1 s.window.2 w5acts = false :=
  ⟨ by with_unfolding_all decide,
    (c5_meal_scheduler w5acts).2 (by with_unfolding_all decide) ⟩

/-! ## Claim C6: travel-day keyword sets -/

/-- Claim C6 counterexample: `drive` is a meal-scheduler travel keyword but not
an injector keyword, so a day reading `drive to the coast` is travel-tagged for
the scheduler while `_find_travel_day` falls back to the first day. -/
theorem c6_counterexample :
    plannerMatches (dayBlob c6day2) = true
    ∧ injMatches (dayBlob c6day2) = false
    ∧ findTravelDay c6sched = some c6day1 := by
  with_unfolding_all decide

theorem listHasPre_append (p1 p2 : List Char) :
    ∀ l, listHasPre (p1 ++ p2) l = true → listHasPre p1 l = true := by
  induction p1 with
  | nil => intro l _; rfl
  | cons a ps ih =>
    intro l h
    cases l with
    | nil => simp [listHasPre] at h
    | cons b ls =>
      simp only [List.cons_append, listHasPre, Bool.and_eq_true] at h ⊢
      exact ⟨ h.1, ih ls h.2 ⟩

theorem hasSubAux_mono (p1 p2 : List Char) :
    ∀ l, hasSubAux (p1 ++ p2) l = true → hasSubAux p1 l = true := by
  intro l
  induction l with
  | nil =>
    intro h
    simp only [hasSubAux] at h ⊢
    cases p1 with
    | nil => rfl
    | cons a ps => simp at h
  | cons b ls ih =>
    intro h
    simp only [hasSubAux, Bool.or_eq_true] at h ⊢
    rcases h with h | h
    · exact Or.inl (listHasPre_append p1 p2 _ h)
    · exact Or.inr (ih h)

theorem injMatches_imp_plannerMatches (s : String) (h : injMatches s = true) :
    plannerMatches s = true := by
  unfold injMatches at h
  rw [List.any_eq_true] at h
  obtain ⟨ kw, hkw, hc ⟩ := h
  unfold plannerMatches
  rw [List.any_eq_true]
  unfold travelKeywordsApi at hkw
  fin_cases hkw
  · exact ⟨ "depart", by decide, hc ⟩
  · exact ⟨ "depart", by decide,
      hasSubAux_mono ("depart").toList ("ure").toList s.toList hc ⟩
  · exact ⟨ "flight", by decide, hc ⟩
  · exact ⟨ "train", by decide, hc ⟩
  · exact ⟨ "transfer", by decide, hc ⟩
  · exact ⟨ "journey", by decide, hc ⟩
  · exact ⟨ "travel", by decide, hc ⟩
  · exact ⟨ "transit", by decide, hc ⟩

theorem findTravelDayAux_eq_find (sched : List TDay) :
    findTravelDayAux sched = sched.find? (fun d => injMatches (dayBlob d)) := by
  induction sched with
  | nil => rfl
  | cons d rest ih =>
    cases hb : injMatches (dayBlob d) with
    | true =>
      show (if injMatches (dayBlob d) = true then some d else findTravelDayAux rest) = _
      rw [if_pos hb]
      conv_rhs => unfold List.find?
      rw [hb]
    | false =>
      have hnb : ¬ injMatches (dayBlob d) = true := by
        rw [hb]; exact Bool.false_ne_true
      show (if injMatches (dayBlob d) = true then some d else findTravelDayAux rest) = _
      rw [if_neg hnb, ih]
      conv_rhs => unfold List.find?
      rw [hb]

/-- Claim C6 (amended): the injector scans with its own 8-keyword set, not the
meal scheduler's 12-keyword set; every injector match is also a scheduler
match (each injector keyword contains a scheduler keyword), but not
conversely, and `_find_travel_day` picks the first
injector-matching day, defaulting to the schedule's first day. -/
theorem c6_travel_day_keywords :
    (∀ s : String, injMatches s = true → plannerMatches s = true)
    ∧ ∀ sched : List TDay,
        findTravelDay sched =
          match sched.find? (fun d => injMatches (dayBlob d)) with
          | some d => some d
          | none => sched.head? := by
  refine ⟨ injMatches_imp_plannerMatches, ?_ ⟩
  intro sched
  unfold findTravelDay
  rw [findTravelDayAux_eq_find]

/-- Claim C6 witness: a blob containing `departure` (matched by the injector
via itself and by the scheduler via its prefix `depart`), plus the concrete
two-day schedule. -/
theorem c6_travel_day_keywords_witness :
    injMatches ("departure at dawn") = true
    ∧ plannerMatches ("departure at dawn") = true
    ∧ findTravelDay c6sched =
        match c6sched.find? (fun d => injMatches (dayBlob d)) with
        | some d => some d
        | none => c6sched.head? :=
  ⟨ by with_unfolding_all decide,
    c6_travel_day_keywords.1 ("departure at dawn") (by with_unfolding_all decide),
    c6_travel_day_keywords.2 c6sched ⟩

/-! ## Claim C7: transport injection no-op guard -/

/-- Claim C7 (confirmed): `_inject_transport_costs` returns
`(itinerary, budget, None)` with both documents unchanged whenever the quote
set is empty or the selected cheapest quote's converted USD total is ≤ 0. -/
theorem c7_transport_no_op (it : TItinerary) (b : BudgetDoc) (opts : TransportOptions)
    (rates : String → Option ℚ)
    (h : opts.quotes = [] ∨ usdQuoteTotal opts rates ≤ 0) :
    injectTransportCosts it b opts rates = (it, b, none) := by
  unfold injectTransportCosts
  split
  · rfl
  next q qs hq =>
    split
    · rfl
    · have hu : usdQuoteTotal opts rates ≤ 0 := by
        rcases h with h0 | h0
        · rw [h0] at hq; exact absurd hq (List.cons_ne_nil q qs).symm
        · exact h0
      have he : usdQuoteTotal opts rates = convertToUsd rates
          (quoteTotalCost (bestQuoteOf q qs (fallbackTravelersOf opts))
            (fallbackTravelersOf opts))
          (bestQuoteOf q qs (fallbackTravelersOf opts)).currency := by
        unfold usdQuoteTotal
        rw [hq]
      dsimp only
      rw [if_pos (he ▸ hu)]

/-- Claim C7 witness: a single quote with negative `group_price` converts to a
USD total of 0, so the injector is a no-op on the concrete documents. -/
theorem c7_transport_no_op_witness :
    usdQuoteTotal w7opts (fun _ => none) ≤ 0
    ∧ injectTransportCosts w7it w7budget w7opts (fun _ => none)
        = (w7it, w7budget, none) :=
  ⟨ by with_unfolding_all decide,
    c7_transport_no_op w7it w7budget w7opts (fun _ => none)
      (Or.inr (by with_unfolding_all decide)) ⟩

/-! ## Claim C8: outlier smoother band -/

/-- Claim C8 counterexample: with rolling average 7 and entry cost 1 the
smoother writes back `int(0.4*7) = 2`, which lies below the claimed lower
band edge `0.4*7 = 2.8`. -/
theorem c8_counterexample :
    histAvg c8hist museumStr = 7
    ∧ (smoothOne c8hist c8entry).cost = some ((2 : ℤ) : ℚ)
    ∧ ¬ (histAvg c8hist museumStr * qdiv 2 5 ≤ ((2 : ℤ) : ℚ)) := by
  with_unfolding_all decide

theorem pyTrunc_mono_nonneg {x y : ℚ} (hx : 0 ≤ x) (hxy : x ≤ y) :
    pyTrunc x ≤ pyTrunc y := by
  unfold pyTrunc
  rw [if_pos hx, if_pos (le_trans hx hxy)]
  exact Int.floor_le_floor hxy

theorem smoothCost_band {avg : ℚ} (h0 : 0 ≤ avg) (hne : avg ≠ 0) {c0 : ℤ}
    (hc0 : c0 ≠ 0) :
    pyTrunc (avg * qdiv 2 5) ≤ smoothCost avg c0
    ∧ smoothCost avg c0 ≤ pyTrunc (avg * qdiv 11 5) := by
  have h25 : (0 : ℚ) ≤ qdiv 2 5 := by rw [qdiv_eq_div]; norm_num
  have h2511 : qdiv 2 5 ≤ qdiv 11 5 := by rw [qdiv_eq_div, qdiv_eq_div]; norm_num
  have hlo0 : 0 ≤ avg * qdiv 2 5 := mul_nonneg h0 h25
  have hhi0 : 0 ≤ avg * qdiv 11 5 :=
    le_trans hlo0 (mul_le_mul_of_nonneg_left h2511 h0)
  have hmono : pyTrunc (avg * qdiv 2 5) ≤ pyTrunc (avg * qdiv 11 5) :=
    pyTrunc_mono_nonneg hlo0 (mul_le_mul_of_nonneg_left h2511 h0)
  unfold smoothCost
  rw [if_pos ⟨ hne, hc0 ⟩]
  split_ifs with h1 h2
  · exact ⟨ le_refl _, hmono ⟩
  · exact ⟨ hmono, le_refl _ ⟩
  · push_neg at h1 h2
    constructor
    · have hc : (pyTrunc (avg * qdiv 2 5) : ℚ) ≤ (c0 : ℚ) :=
        le_trans (pyTrunc_le hlo0) h1
      exact_mod_cast hc
    · have hhi : pyTrunc (avg * qdiv 11 5) = ⌊avg * qdiv 11 5⌋ := by
        unfold pyTrunc
        rw [if_pos hhi0]
      rw [hhi]
      exact Int.le_floor.mpr h2

theorem recordHistory_pos (h : String → List ℤ) (cat : String) (v : ℤ)
    (hp : ∀ c x, x ∈ h c → 0 < x) :
    ∀ c x, x ∈ recordHistory h cat v c → 0 < x := by
  intro c x hx
  unfold recordHistory at hx
  by_cases hv : v ≤ 0
  · rw [if_pos hv] at hx
    exact hp c x hx
  · rw [if_neg hv] at hx
    simp only at hx
    by_cases hc : c = cat
    · rw [if_pos hc] at hx
      have hx2 : x ∈ h cat ++ [ v ] := List.mem_of_mem_drop hx
      rcases List.mem_append.mp hx2 with hl | hr
      · exact hp cat x hl
      · rw [List.mem_singleton.mp hr]
        omega
    · rw [if_neg hc] at hx
      exact hp c x hx

theorem stepHist_pos (h : String → List ℤ) (e : SEntry)
    (hp : ∀ c x, x ∈ h c → 0 < x) :
    ∀ c x, x ∈ stepHist h e c → 0 < x := by
  intro c x hx
  unfold stepHist at hx
  split_ifs at hx with h1
  · exact recordHistory_pos h (catOf e) _ hp c x hx
  · exact hp c x hx

theorem smoothActs_pos (acts : List SEntry) :
    ∀ (h : String → List ℤ), (∀ c v, v ∈ h c → 0 < v) →
      ∀ c v, v ∈ (smoothActs h acts).2 c → 0 < v := by
  induction acts with
  | nil => intro h hp; exact hp
  | cons e rest ih => intro h hp; exact ih (stepHist h e) (stepHist_pos h e hp)

theorem histAvg_nonneg (h : String → List ℤ) (cat : String)
    (hp : ∀ v, v ∈ h cat → 0 ≤ v) : 0 ≤ histAvg h cat := by
  unfold histAvg
  cases hl : h cat with
  | nil => exact le_refl 0
  | cons v vs =>
    show (0 : ℚ) ≤ qdiv (((v :: vs).sum : ℤ) : ℚ) (((v :: vs).length : ℕ) : ℚ)
    rw [qdiv_eq_div]
    apply div_nonneg
    · have hs : 0 ≤ (v :: vs).sum :=
        List.sum_nonneg (fun x hx => hp x (by rw [hl]; exact hx))
      exact_mod_cast hs
    · positivity

theorem smoothActs_get (acts : List SEntry) :
    ∀ (h : String → List ℤ) (i : ℕ) (hi : i < acts.length)
      (hi2 : i < (smoothActs h acts).1.length),
      (smoothActs h acts).1.get ⟨ i, hi2 ⟩
        = smoothOne ((smoothActs h (acts.take i)).2) (acts.get ⟨ i, hi ⟩) := by
  induction acts with
  | nil => intro h i hi _; exact absurd hi (Nat.not_lt_zero i)
  | cons e rest ih =>
    intro h i hi hi2
    cases i with
    | zero => rfl
    | succ n =>
      exact ih (stepHist h e) n (Nat.lt_of_succ_lt_succ hi)
        (Nat.lt_of_succ_lt_succ hi2)

/-- Claim C8 (amended): whenever an activity is processed with a non-zero
rolling average and non-zero coerced cost, the smoothed cost lies in the
integer-truncated band `[int(0.4*avg), int(2.2*avg)]` (under a positive cost
history), and when non-zero it is written back into both `estimated_cost` and
`cost`; the exact band `[0.4*avg, 2.2*avg]` of the spec fails below the lower
edge. -/
theorem c8_smoother_band (h : String → List ℤ) (acts : List SEntry) (i : ℕ)
    (hi : i < acts.length) (hi2 : i < (smoothActs h acts).1.length)
    (hp : ∀ c v, v ∈ h c → 0 < v)
    (havg : histAvg ((smoothActs h (acts.take i)).2) (catOf (acts.get ⟨ i, hi ⟩)) ≠ 0)
    (hc0 : safeIntOpt (rawCostOf (acts.get ⟨ i, hi ⟩)) ≠ 0) :
    pyTrunc (histAvg ((smoothActs h (acts.take i)).2) (catOf (acts.get ⟨ i, hi ⟩))
        * qdiv 2 5)
      ≤ smoothCost (histAvg ((smoothActs h (acts.take i)).2) (catOf (acts.get ⟨ i, hi ⟩)))
          (safeIntOpt (rawCostOf (acts.get ⟨ i, hi ⟩)))
    ∧ smoothCost (histAvg ((smoothActs h (acts.take i)).2) (catOf (acts.get ⟨ i, hi ⟩)))
          (safeIntOpt (rawCostOf (acts.get ⟨ i, hi ⟩)))
      ≤ pyTrunc (histAvg ((smoothActs h (acts.take i)).2) (catOf (acts.get ⟨ i, hi ⟩))
          * qdiv 11 5)
    ∧ (smoothCost (histAvg ((smoothActs h (acts.take i)).2) (catOf (acts.get ⟨ i, hi ⟩)))
          (safeIntOpt (rawCostOf (acts.get ⟨ i, hi ⟩))) ≠ 0 →
        (smoothActs h acts).1.get ⟨ i, hi2 ⟩
          = { acts.get ⟨ i, hi ⟩ with
              estimated_cost := some ((smoothCost
                (histAvg ((smoothActs h (acts.take i)).2) (catOf (acts.get ⟨ i, hi ⟩)))
                (safeIntOpt (rawCostOf (acts.get ⟨ i, hi ⟩))) : ℤ) : ℚ),
              cost := some ((smoothCost
                (histAvg ((smoothActs h (acts.take i)).2) (catOf (acts.get ⟨ i, hi ⟩)))
                (safeIntOpt (rawCostOf (acts.get ⟨ i, hi ⟩))) : ℤ) : ℚ) }) := by
  have hp2 : ∀ c v, v ∈ (smoothActs h (acts.take i)).2 c → 0 < v :=
    smoothActs_pos (acts.take i) h hp
  have havg0 : 0 ≤ histAvg ((smoothActs h (acts.take i)).2) (catOf (acts.get ⟨ i, hi ⟩)) :=
    histAvg_nonneg _ _ (fun v hv => le_of_lt (hp2 _ v hv))
  obtain ⟨ hb1, hb2 ⟩ := smoothCost_band havg0 havg hc0
  refine ⟨ hb1, hb2, ?_ ⟩
  intro hcne
  rw [smoothActs_get acts h i hi hi2]
  unfold smoothOne
  simp only
  rw [if_pos hcne]

/-- Claim C8 witness: history average 20 for `museum` and entry cost 100; the
smoothed cost is clamped into `[int(8), int(44)]` and written back. -/
theorem c8_smoother_band_witness :
    pyTrunc (histAvg w8hist (catOf w8entry) * qdiv 2 5)
      ≤ smoothCost (histAvg w8hist (catOf w8entry)) (safeIntOpt (rawCostOf w8entry))
    ∧ smoothCost (histAvg w8hist (catOf w8entry)) (safeIntOpt (rawCostOf w8entry))
      ≤ pyTrunc (histAvg w8hist (catOf w8entry) * qdiv 11 5)
    ∧ (smoothCost (histAvg w8hist (catOf w8entry)) (safeIntOpt (rawCostOf w8entry)) ≠ 0 →
        (smoothActs w8hist [ w8entry ]).1.get ⟨ 0, by with_unfolding_all decide ⟩
          = { w8entry with
              estimated_cost := some ((smoothCost (histAvg w8hist (catOf w8entry))
                (safeIntOpt (rawCostOf w8entry)) : ℤ) : ℚ),
              cost := some ((smoothCost (histAvg w8hist (catOf w8entry))
                (safeIntOpt (rawCostOf w8entry)) : ℤ) : ℚ) }) :=
  c8_smoother_band w8hist [ w8entry ] 0 (by decide) (by with_unfolding_all decide)
    (fun c v hv => by
      unfold w8hist at hv
      split_ifs at hv
      · rw [List.mem_singleton.mp hv]
        norm_num
      · exact absurd hv (List.not_mem_nil v))
    (by with_unfolding_all decide) (by with_unfolding_all decide)

/-! ## Claim C10: failed fetch cached for the TTL -/

/-- Claim C10 (confirmed): on a cache miss with a raising fetcher,
`_cached_geo_result` returns the fallback and stores it under the key with
the current timestamp, and any later call with the same key within the
3600-second TTL returns the cached fallback with the cache unchanged,
regardless of its own fetcher and fallback. -/
theorem c10_fallback_cached {α : Type} (cache : String → Option (CacheCell α))
    (key : String) (fallback : List α) (now now2 : ℚ)
    (hmiss : (getCachedEntry cache key now).1 = none)
    (httl : now2 - now ≤ 3600) :
    (cachedGeoResult cache key (Except.error ()) fallback now).1 = fallback
    ∧ (cachedGeoResult cache key (Except.error ()) fallback now).2 key
        = some ⟨ fallback, now ⟩
    ∧ ∀ (fetch2 : Except Unit (List α)) (fb2 : List α),
        cachedGeoResult ((cachedGeoResult cache key (Except.error ()) fallback now).2)
            key fetch2 fb2 now2
          = (fallback, (cachedGeoResult cache key (Except.error ()) fallback now).2) := by
  set c2 := (getCachedEntry cache key now).2 with hc2
  have h1 : cachedGeoResult cache key (Except.error ()) fallback now
      = (fallback, setCacheEntry c2 key fallback now) := by
    unfold cachedGeoResult
    dsimp only
    rw [hmiss]
  have hkey : setCacheEntry c2 key fallback now key = some ⟨ fallback, now ⟩ := by
    unfold setCacheEntry
    rw [if_pos rfl]
  have hget : getCachedEntry (setCacheEntry c2 key fallback now) key now2
      = (some fallback, setCacheEntry c2 key fallback now) := by
    unfold getCachedEntry
    rw [hkey]
    dsimp only
    rw [if_neg (not_lt.mpr httl)]
  refine ⟨ by rw [h1], ?_, ?_ ⟩
  · rw [h1]
    exact hkey
  · intro fetch2 fb2
    rw [h1]
    unfold cachedGeoResult
    dsimp only
    rw [hget]

/-- Claim C10 witness: empty cache, failing fetch at time 0, second lookup at
time 100 with a succeeding fetcher still returns the cached fallback. -/
theorem c10_fallback_cached_witness :
    (cachedGeoResult w10cache w10key (Except.error ()) [ 5 ] 0).1 = [ 5 ]
    ∧ (cachedGeoResult w10cache w10key (Except.error ()) [ 5 ] 0).2 w10key
        = some ⟨ [ 5 ], 0 ⟩
    ∧ cachedGeoResult ((cachedGeoResult w10cache w10key (Except.error ()) [ 5 ] 0).2)
          w10key (Except.ok [ 9 ]) [] 100
        = ([ 5 ], (cachedGeoResult w10cache w10key (Except.error ()) [ 5 ] 0).2) :=
  ⟨ (c10_fallback_cached w10cache w10key [ 5 ] 0 100 (by with_unfolding_all rfl)
      (by with_unfolding_all decide)).1,
    (c10_fallback_cached w10cache w10key [ 5 ] 0 100 (by with_unfolding_all rfl)
      (by with_unfolding_all decide)).2.1,
    (c10_fallback_cached w10cache w10key [ 5 ] 0 100 (by with_unfolding_all rfl)
      (by with_unfolding_all decide)).2.2 (Except.ok [ 9 ]) [] ⟩
